import Mathlib

/-!
Frame table and eviction engine (`src/vm/frame.c`).

A shallow embedding of `frame.c`.  The kernel state touched by the file is an
explicit record `State`; every C function becomes a function on `State`.
Nullable pointers (`void *kpage`, `struct origin_info *origin`, the result of
`frame_find`) are `Option`s with `none` for `NULL`.  The collaborators that
`frame.c` only calls (page allocator, hash table, page directory, file system,
swap) are not part of the file and are modelled from their contracts.
-/

namespace Pintos

/-! ## Data model -/

/-- Modelled from the spec: the `location` tag of an origin (its header is not
part of the sources), "variant {File, Zero, Swap, Executable-segment}". -/
inductive Location where
  | FILE
  | ZERO
  | SWAP
  | EXEC
  deriving DecidableEq, Repr

/-- Fields of `struct origin_info` that `page_dump` reads. -/
structure Origin_info where
  source_file : Nat
  offset : Nat
  zero_after : Nat
  writable : Bool
  location : Location
  deriving DecidableEq, Repr

/-- Fields of `struct thread` that `frame.c` reads: the page directory and the
semaphore guarding its modification. -/
structure Thread where
  tid : Nat
  pagedir : Nat
  pagedir_mod : Nat
  deriving DecidableEq, Repr

/-- Record `struct frame`.  `addr` is never `NULL`: `frame_get` builds a record
only under `kpage != NULL`. -/
structure Frame where
  addr : Nat
  upage : Nat
  origin : Option Origin_info
  thread : Thread
  deriving DecidableEq, Repr

/-- Modelled from the spec: the supplemental record built by `new_zero_page`,
`new_file_page` and `new_swap_page` (not part of the sources): `ZeroPage`,
`FilePage{source_file, offset, zero_after_bytes, writable, location}`,
`SwapPage{slot}`. -/
inductive Suppl_page where
  | zero
  | file (source_file offset zero_after : Nat) (writable : Bool) (location : Location)
  | swap (slot : Nat)
  deriving DecidableEq, Repr

/-- Modelled from the spec: the swap-slot handle returned by `swap_slot`
(`allocate_slot(frame) -> Slot`): the slot number and the frame it is for. -/
structure Swap_slt where
  slot : Nat
  addr : Nat
  deriving DecidableEq, Repr

/-- Modelled from the spec: one page-table entry as seen through the page-table
interface: the resident mapping, the hardware accessed and dirty bits, and the
installed supplemental record. -/
structure Pte where
  kpage : Option Nat
  accessed : Bool
  dirty : Bool
  suppl : Option Suppl_page
  deriving DecidableEq, Repr

/-- Locks and semaphores taken by `frame.c`. -/
inductive LockId where
  | frames_lock
  | eviction_lock
  | filesys_lock
  | pagedir_mod (sema : Nat)
  deriving DecidableEq, Repr

/-- Observable events: lock traffic and writes to persistent storage. -/
inductive Event where
  | acquire (l : LockId)
  | release (l : LockId)
  | file_write (file buffer size offset : Nat)
  | swap_alloc (slot addr : Nat)
  | swap_write (slot addr : Nat)
  deriving DecidableEq, Repr

/-- Kernel state read or written by `frame.c`.
* `frames`: the hash table `frames`, as the list of its records in iteration order;
* `free`: the free pages of the user pool of the page allocator;
* `mem`: physical memory, byte by byte;
* `pagedirs`: page directory, then virtual page, to page-table entry;
* `files`: file, then byte offset, to byte;
* `swap`: swap slot, then byte offset, to byte; `swap_next`: next unused slot;
* `trace`: the events so far, oldest first. -/
structure State where
  frames : List Frame
  free : List Nat
  mem : Nat → Nat
  pagedirs : Nat → Nat → Pte
  files : Nat → Nat → Nat
  swap : Nat → Nat → Nat
  swap_next : Nat
  trace : List Event

/-- Page size in bytes. -/
def PGSIZE : Nat := 4096

/-- Append an event to the trace. -/
def emit (e : Event) (s : State) : State :=
  { s with trace := s.trace ++ [e] }

/-! ## Collaborators -/

/-- Modelled from the spec: `lock_acquire` (threads/synch.c is not part of the
sources); recorded as an event. -/
def lock_acquire (l : LockId) (s : State) : State := emit (Event.acquire l) s

/-- Modelled from the spec: `lock_release`; recorded as an event. -/
def lock_release (l : LockId) (s : State) : State := emit (Event.release l) s

/-- Modelled from the spec: the physical allocator `alloc(zero) -> Option<PhysicalAddress>`
(threads/palloc.c is not part of the sources): hands out a free page of the user
pool (the first of the free pages kept in `free`), zero-filled when asked, or
`NULL` when none is free. -/
def palloc_get_page (zero : Bool) (s : State) : Option Nat × State :=
  match s.free with
  | [] => (none, s)
  | a :: rest =>
    (some a, { s with
      free := rest,
      mem := fun x => if zero && decide (a ≤ x) && decide (x < a + PGSIZE) then 0 else s.mem x })

/-- Modelled from the spec: the physical allocator `free(PhysicalAddress)`:
the page returns to the free pages of the pool. -/
def palloc_free_page (a : Nat) (s : State) : State :=
  { s with free := a :: s.free }

/-- Comparison `frame_less`: orders records by `addr`. -/
def frame_less (a b : Nat) : Bool := decide (a < b)

/-- Modelled from the spec: `hash_find` (lib/kernel/hash.c is not part of the
sources): the record equal to the probe, that is, neither less than the other
under `frame_less`. -/
def hash_find (h : List Frame) (addr : Nat) : Option Frame :=
  h.find? (fun f => !frame_less f.addr addr && !frame_less addr f.addr)

/-- Modelled from the spec: `hash_insert`, "adds a new Frame, fails if
`physical_address` already present".  The place of a new record in iteration
order is the front. -/
def hash_insert (h : List Frame) (f : Frame) : List Frame :=
  match hash_find h f.addr with
  | some _ => h
  | none => f :: h

/-- Modelled from the spec: `hash_delete`, removes the record equal to `f`. -/
def hash_delete (h : List Frame) (f : Frame) : List Frame :=
  h.eraseP (fun g => !frame_less g.addr f.addr && !frame_less f.addr g.addr)

/-- Modelled from the spec: `is_dirty(context, vpage) -> bool`. -/
def pagedir_is_dirty (s : State) (pd page : Nat) : Bool := (s.pagedirs pd page).dirty

/-- Modelled from the spec: `is_accessed(context, vpage) -> bool`. -/
def pagedir_is_accessed (s : State) (pd page : Nat) : Bool := (s.pagedirs pd page).accessed

/-- Update of one page-table entry. -/
def pte_update (s : State) (pd page : Nat) (g : Pte → Pte) : State :=
  { s with pagedirs := fun d p =>
      if d = pd ∧ p = page then g (s.pagedirs d p) else s.pagedirs d p }

/-- Modelled from the spec: `set_accessed(context, vpage, bool)`. -/
def pagedir_set_accessed (pd page : Nat) (b : Bool) (s : State) : State :=
  pte_update s pd page (fun e => { e with accessed := b })

/-- Modelled from the spec: `clear_mapping(context, vpage)`: the page is no
longer resident; the other bits of the entry stay. -/
def pagedir_clear_page (pd page : Nat) (s : State) : State :=
  pte_update s pd page (fun e => { e with kpage := none })

/-- Modelled from the spec: `install_supplemental(context, vpage, SupplementalRecord)`. -/
def pagedir_set_page_suppl (pd page : Nat) (sp : Suppl_page) (s : State) : State :=
  pte_update s pd page (fun e => { e with suppl := some sp })

/-- Modelled from the spec: the file store `write_at(file, buffer, length, offset)`:
bytes `offset .. offset + size` of `file` become the `size` bytes of memory
starting at `buffer`. -/
def file_write_at (file buffer size offset : Nat) (s : State) : State :=
  emit (Event.file_write file buffer size offset)
    { s with files := fun f i =>
        if f = file ∧ offset ≤ i ∧ i < offset + size then s.mem (buffer + (i - offset))
        else s.files f i }

/-- Modelled from the spec: the swap store `allocate_slot(frame) -> Slot`: the
next unused slot, reserved for the frame. -/
def swap_slot (f : Frame) (s : State) : Swap_slt × State :=
  ({ slot := s.swap_next, addr := f.addr },
    emit (Event.swap_alloc s.swap_next f.addr) { s with swap_next := s.swap_next + 1 })

/-- Modelled from the spec: the swap store `store(slot, buffer)`: the page of the
frame is copied into the slot. -/
def swap_store (el : Swap_slt) (s : State) : State :=
  emit (Event.swap_write el.slot el.addr)
    { s with swap := fun k i =>
        if k = el.slot ∧ i < PGSIZE then s.mem (el.addr + i) else s.swap k i }

/-! ## `frame.c` -/

/-- Function `lock_frames`. -/
def lock_frames (s : State) : State := lock_acquire LockId.frames_lock s

/-- Function `unlock_frames`. -/
def unlock_frames (s : State) : State := lock_release LockId.frames_lock s

/-- Function `frame_init`: the table starts empty. -/
def frame_init (s : State) : State := { s with frames := [] }

/-- Function `frame_find`: the record whose `addr` is the given address, or `NULL`.
No record has a `NULL` address, so the probe for `NULL` finds nothing. -/
def frame_find (addr : Option Nat) (s : State) : Option Frame :=
  match addr with
  | none => none
  | some a => hash_find s.frames a

/-- Function `frame_free`. -/
def frame_free (addr : Option Nat) (s : State) : Bool × State :=
  match frame_find addr s with
  | some frame =>
    let s1 := lock_frames s
    let s2 := palloc_free_page frame.addr s1
    let s3 := { s2 with frames := hash_delete s2.frames frame }
    (true, unlock_frames s3)
  | none => (false, s)

/-- Function `get_class`. -/
def get_class (s : State) (pd page : Nat) : Int :=
  let dirty := pagedir_is_dirty s pd page
  let accessed := pagedir_is_accessed s pd page
  if accessed then (if dirty then 4 else 2) else (if dirty then 3 else 1)

/-- First half of `page_dump`: writes the page out when it is dirty and builds
the supplemental record. -/
def page_dump_store (frame : Frame) (s : State) : Suppl_page × State :=
  let dirty := pagedir_is_dirty s frame.thread.pagedir frame.upage
  if dirty then
    match frame.origin with
    | some o =>
      if o.location = Location.FILE then
        let s1 := lock_acquire LockId.filesys_lock s
        let s2 := file_write_at o.source_file frame.addr o.zero_after o.offset s1
        let s3 := lock_release LockId.filesys_lock s2
        (Suppl_page.file o.source_file o.offset o.zero_after o.writable Location.FILE, s3)
      else
        let r := swap_slot frame s
        (Suppl_page.swap r.1.slot, swap_store r.1 r.2)
    | none =>
      let r := swap_slot frame s
      (Suppl_page.swap r.1.slot, swap_store r.1 r.2)
  else
    match frame.origin with
    | some o => (Suppl_page.file o.source_file o.offset o.zero_after o.writable o.location, s)
    | none => (Suppl_page.zero, s)

/-- Function `page_dump`. -/
def page_dump (pd upage : Nat) (frame : Frame) (s : State) : State :=
  let r := page_dump_store frame s
  let s1 := lock_acquire (LockId.pagedir_mod frame.thread.pagedir_mod) r.2
  let s2 := pagedir_clear_page frame.thread.pagedir upage s1
  let s3 := pagedir_set_page_suppl frame.thread.pagedir upage r.1 s2
  let s4 := pagedir_set_accessed frame.thread.pagedir upage false s3
  lock_release (LockId.pagedir_mod frame.thread.pagedir_mod) s4

/-- First inner loop of `evict`: the scan for a record of class 1, over the
records still to be visited. -/
def evict_passA (pd upage : Nat) : List Frame → Option Nat → State → Option Nat × State
  | [], kpage, s => (kpage, s)
  | f :: fs, kpage, s =>
    match kpage with
    | some k => (some k, s)
    | none =>
      if get_class s f.thread.pagedir upage = 1 then
        evict_passA pd upage fs (some f.addr) (page_dump pd upage f s)
      else
        evict_passA pd upage fs none s

/-- Second inner loop of `evict`: the scan for a record of class 3, clearing the
accessed bit on the way. -/
def evict_passB (pd upage : Nat) : List Frame → Option Nat → State → Option Nat × State
  | [], kpage, s => (kpage, s)
  | f :: fs, kpage, s =>
    match kpage with
    | some k => (some k, s)
    | none =>
      if get_class s f.thread.pagedir upage = 3 then
        evict_passB pd upage fs (some f.addr) (page_dump pd upage f s)
      else
        evict_passB pd upage fs none (pagedir_set_accessed f.thread.pagedir upage false s)

/-- Outer loop of `evict`, `for (i = 0; i < 2 && kpage == NULL; i++)`, by the
number of rounds left. -/
def evict_rounds (pd upage : Nat) : Nat → Option Nat → State → Option Nat × State
  | 0, kpage, s => (kpage, s)
  | n + 1, kpage, s =>
    match kpage with
    | some k => (some k, s)
    | none =>
      let a := evict_passA pd upage s.frames none s
      let b := evict_passB pd upage a.2.frames a.1 a.2
      evict_rounds pd upage n b.1 b.2

/-- Function `evict` up to `unlock_frames`: the victim address and the state. -/
def evict_scan (upage : Nat) (th : Thread) (s : State) : Option Nat × State :=
  let r := evict_rounds th.pagedir upage 2 none (lock_frames s)
  (r.1, unlock_frames r.2)

/-- Function `evict`. -/
def evict (upage : Nat) (th : Thread) (s : State) : State :=
  let r := evict_scan upage th s
  (frame_free r.1 r.2).2

/-- Function `frame_get`; `t` is the result of `thread_current ()`. -/
def frame_get (t : Thread) (upage : Nat) (zero : Bool) (origin : Option Origin_info)
    (s : State) : Option Nat × State :=
  let r := palloc_get_page zero s
  let r2 :=
    match r.1 with
    | none =>
      let s1 := lock_acquire LockId.eviction_lock r.2
      let s2 := evict upage t s1
      let r1 := palloc_get_page zero s2
      (r1.1, lock_release LockId.eviction_lock r1.2)
    | some k => (some k, r.2)
  match r2.1 with
  | some k =>
    let frame : Frame := { addr := k, upage := upage, origin := origin, thread := t }
    let s3 := lock_frames r2.2
    let s4 := { s3 with frames := hash_insert s3.frames frame }
    (some k, unlock_frames s4)
  | none => (none, r2.2)

/-- Classification as the spec words it: 4 if accessed and dirty, 3 if not
accessed and dirty, 2 if accessed and not dirty, 1 if neither. -/
def spec_class (accessed dirty : Bool) : Int :=
  match accessed, dirty with
  | true, true => 4
  | false, true => 3
  | true, false => 2
  | false, false => 1

/-! ## Predicates, call sequences and sample states -/

/-- Keys of the frame table. -/
def frame_keys (s : State) : List Nat := s.frames.map Frame.addr

/-- Well-formed state: no two records share an address and no address of a
record is free in the allocator. -/
def State.wf (s : State) : Prop := (frame_keys s ++ s.free).Nodup

instance (s : State) : Decidable (State.wf s) := by
  unfold State.wf; infer_instance

/-- A call into the frame table by some thread. -/
inductive Op where
  | get (t : Thread) (upage : Nat) (zero : Bool) (origin : Option Origin_info)
  | free (addr : Option Nat)
  deriving DecidableEq, Repr

/-- State after one call. -/
def step (s : State) : Op → State
  | Op.get t upage zero origin => (frame_get t upage zero origin s).2
  | Op.free addr => (frame_free addr s).2

/-- State after a sequence of calls, first call first. -/
def run (ops : List Op) (s : State) : State := ops.foldl step s

/-- Invariant of the frame table against a pool: the addresses of the records
and the free pages are pairwise distinct pages of the pool. -/
def Inv (pool : List Nat) (s : State) : Prop :=
  (frame_keys s ++ s.free).Nodup ∧ ∀ a ∈ frame_keys s ++ s.free, a ∈ pool

/-- State after a full second scan that selects nothing: the accessed bit of the
requesting page is cleared in the page directory of every owner of a record. -/
def clear_accessed_all (upage : Nat) (fs : List Frame) (s : State) : State :=
  { s with pagedirs := fun d p =>
      if p = upage ∧ d ∈ fs.map (fun g => g.thread.pagedir) then
        { s.pagedirs d p with accessed := false }
      else s.pagedirs d p }

/-- An entry with no mapping, both bits clear and no supplemental record. -/
def pte_empty : Pte := { kpage := none, accessed := false, dirty := false, suppl := none }

/-- A concrete state with the given table, free pages and page tables. -/
def mk_state (frames : List Frame) (free : List Nat) (pagedirs : Nat → Nat → Pte) : State :=
  { frames := frames, free := free, mem := fun x => x % 251, pagedirs := pagedirs,
    files := fun _ _ => 0, swap := fun _ _ => 0, swap_next := 0, trace := [] }

/-- A thread with tid, page directory and semaphore all `n`. -/
def mk_thread (n : Nat) : Thread := { tid := n, pagedir := n, pagedir_mod := n }

/-- State with one free page and an empty table. -/
def st_one_free : State := mk_state [] [4096] (fun _ _ => pte_empty)

/-- An entry with the given accessed and dirty bits and nothing else. -/
def pte_bits (accessed dirty : Bool) : Pte :=
  { kpage := none, accessed := accessed, dirty := dirty, suppl := none }

/-- A record owned by thread `n`. -/
def mk_frame (addr upage n : Nat) (origin : Option Origin_info) : Frame :=
  { addr := addr, upage := upage, origin := origin, thread := mk_thread n }

/-- State with two records and one free page. -/
def st_two : State :=
  mk_state [mk_frame 4096 10 1 none, mk_frame 8192 20 2 none] [12288] (fun _ _ => pte_empty)

/-- State with a pool of two free pages and a table that is not yet set up. -/
def st_pool : State := mk_state [mk_frame 4096 10 1 none] [4096, 8192] (fun _ _ => pte_empty)

/-- Calls that fill the pool, force an eviction, and release twice. -/
def ops_demo : List Op :=
  [Op.get (mk_thread 1) 10 true none, Op.get (mk_thread 2) 20 false none,
   Op.get (mk_thread 1) 30 true none, Op.free (some 4096), Op.free (some 4096), Op.free none]

/-- State with three records, the requesting page 100 accessed and clean in every
page directory, and no free page. -/
def st_three : State :=
  mk_state [mk_frame 4096 10 1 none, mk_frame 8192 20 1 none, mk_frame 12288 30 2 none] []
    (fun _ p => if p = 100 then pte_bits true false else pte_empty)

/-- State with one record of class 1 and no free page. -/
def st_single : State := mk_state [mk_frame 4096 10 1 none] [] (fun _ _ => pte_empty)

/-- State with no record and no free page. -/
def st_exhausted : State := mk_state [] [] (fun _ _ => pte_empty)

/-- An origin in file 7. -/
def origin_demo : Origin_info :=
  { source_file := 7, offset := 512, zero_after := 100, writable := true,
    location := Location.FILE }

/-- State in which page 10 of page directory 1 is dirty. -/
def st_dirty : State :=
  mk_state [mk_frame 4096 10 1 (some origin_demo)] []
    (fun d p => if d = 1 ∧ p = 10 then pte_bits true true else pte_empty)

/-- Whether an event is a write to persistent storage (to a file or to swap). -/
def is_storage_write : Event → Bool
  | Event.file_write _ _ _ _ => true
  | Event.swap_write _ _ => true
  | _ => false

/-- Number of writes to persistent storage in a trace. -/
def storage_writes (tr : List Event) : Nat := tr.countP is_storage_write

/-- An entry mapped to a frame, with the given accessed bit, clean, with no
supplemental record. -/
def pte_mapped (kpage : Nat) (accessed : Bool) : Pte :=
  { kpage := some kpage, accessed := accessed, dirty := false, suppl := none }

/-- State in which thread 1 owns two resident pages: page 10 in frame 4096
(accessed) and page 100 in frame 8192 (not accessed); no page is free. -/
def st_mapped : State :=
  mk_state [mk_frame 4096 10 1 none, mk_frame 8192 100 1 none] []
    (fun d p => if d = 1 ∧ p = 10 then pte_mapped 4096 true
                else if d = 1 ∧ p = 100 then pte_mapped 8192 false else pte_empty)
/-- An origin in an executable segment of file 7. -/
def origin_exec : Origin_info :=
  { source_file := 7, offset := 1024, zero_after := 200, writable := false,
    location := Location.EXEC }

/-- State in which page 10 of page directory 1 is dirty and backed by no file. -/
def st_dirty_anon : State :=
  mk_state [mk_frame 4096 10 1 none] []
    (fun d p => if d = 1 ∧ p = 10 then pte_bits true true else pte_empty)

/-- State with one clean record that has an origin. -/
def st_clean_origin : State :=
  mk_state [mk_frame 4096 10 1 (some origin_exec)] [] (fun _ _ => pte_empty)

/-- Number of executions of the body of the first inner loop of `evict`, counted
along `evict_passA`. -/
def evict_passA_visits (pd upage : Nat) : List Frame → Option Nat → State → Nat
  | [], _, _ => 0
  | f :: fs, kpage, s =>
    match kpage with
    | some _ => 0
    | none =>
      if get_class s f.thread.pagedir upage = 1 then
        1 + evict_passA_visits pd upage fs (some f.addr) (page_dump pd upage f s)
      else
        1 + evict_passA_visits pd upage fs none s

/-- Number of executions of the body of the second inner loop of `evict`, counted
along `evict_passB`. -/
def evict_passB_visits (pd upage : Nat) : List Frame → Option Nat → State → Nat
  | [], _, _ => 0
  | f :: fs, kpage, s =>
    match kpage with
    | some _ => 0
    | none =>
      if get_class s f.thread.pagedir upage = 3 then
        1 + evict_passB_visits pd upage fs (some f.addr) (page_dump pd upage f s)
      else
        1 + evict_passB_visits pd upage fs none
          (pagedir_set_accessed f.thread.pagedir upage false s)

/-- Number of executions of the body of the outer loop of `evict`, counted along
`evict_rounds`. -/
def evict_rounds_run (pd upage : Nat) : Nat → Option Nat → State → Nat
  | 0, _, _ => 0
  | n + 1, kpage, s =>
    match kpage with
    | some _ => 0
    | none =>
      let a := evict_passA pd upage s.frames none s
      let b := evict_passB pd upage a.2.frames a.1 a.2
      1 + evict_rounds_run pd upage n b.1 b.2

/-- Number of executions of the bodies of the two inner loops of `evict` over all
rounds, counted along `evict_rounds`. -/
def evict_rounds_visits (pd upage : Nat) : Nat → Option Nat → State → Nat
  | 0, _, _ => 0
  | n + 1, kpage, s =>
    match kpage with
    | some _ => 0
    | none =>
      let a := evict_passA pd upage s.frames none s
      let b := evict_passB pd upage a.2.frames a.1 a.2
      evict_passA_visits pd upage s.frames none s
        + evict_passB_visits pd upage a.2.frames a.1 a.2
        + evict_rounds_visits pd upage n b.1 b.2

/-- State with two records, of threads 1 and 2, in which the requesting page 100
is accessed and clean for thread 1 and neither accessed nor dirty for thread 2. -/
def st_second_idle : State :=
  mk_state [mk_frame 4096 10 1 none, mk_frame 8192 20 2 none] []
    (fun d p => if d = 1 ∧ p = 100 then pte_bits true false else pte_empty)

/-- State in which thread 1 owns page 10 in frame 4096 (accessed, clean) and page
100 in frame 8192 (accessed, dirty), thread 2 owns page 100 in frame 12288
(dirty, not accessed), and no page is free. -/
def st_shared : State :=
  mk_state [mk_frame 4096 10 1 none, mk_frame 8192 100 1 none, mk_frame 12288 100 2 none] []
    (fun d p =>
      if d = 1 ∧ p = 10 then { kpage := some 4096, accessed := true, dirty := false, suppl := none }
      else if d = 1 ∧ p = 100 then
        { kpage := some 8192, accessed := true, dirty := true, suppl := none }
      else if d = 2 ∧ p = 100 then
        { kpage := some 12288, accessed := false, dirty := true, suppl := none }
      else pte_empty)

/-- Way a call of a function of `frame.c` ends: it returns to its caller, or the
kernel stops on an internal error (a `PANIC` or a failed `ASSERT`). -/
inductive Outcome where
  | returned (s : State)
  | internal_error

/-- Outcome of a call of `evict`: the body has no `PANIC`, no `ASSERT` and no
early exit, and the result of its last statement `frame_free (kpage)` is
discarded, so every call returns. -/
def evict_outcome (upage : Nat) (th : Thread) (s : State) : Outcome :=
  Outcome.returned (evict upage th s)

/-- The record with its own virtual page replaced by `u f`. -/
def set_upage (u : Frame → Nat) (f : Frame) : Frame := { f with upage := u f }

/-- Whether a lock is the `pagedir_mod` semaphore of some thread. -/
def is_pagedir_mod : LockId → Bool
  | LockId.pagedir_mod _ => true
  | _ => false

/-- Lock ordering of the spec, one event at a time, on the list of locks held:
the eviction lock is not acquired while the frame-table lock or a `pagedir_mod`
semaphore is held; the frame-table lock is not acquired while it is held; the
file-system lock and a `pagedir_mod` semaphore are acquired only while the
frame-table lock is held; only a held lock is released.  The result is the new
list of locks held, or `none` when the event breaks the ordering. -/
def lock_step (held : List LockId) : Event → Option (List LockId)
  | Event.acquire l =>
    match l with
    | LockId.eviction_lock =>
      if LockId.frames_lock ∈ held ∨ held.any is_pagedir_mod = true then none
      else some (l :: held)
    | LockId.frames_lock =>
      if LockId.frames_lock ∈ held then none else some (l :: held)
    | LockId.filesys_lock =>
      if LockId.frames_lock ∈ held then some (l :: held) else none
    | LockId.pagedir_mod _ =>
      if LockId.frames_lock ∈ held then some (l :: held) else none
  | Event.release l => if l ∈ held then some (held.erase l) else none
  | _ => some held

/-- Lock ordering of the spec along a sequence of events, from the locks held
at its start to the locks held at its end. -/
def lock_run (held : List LockId) : List Event → Option (List LockId)
  | [] => some held
  | e :: es =>
    match lock_step held e with
    | none => none
    | some h => lock_run h es

/-- The events between state `s` and state `s2` respect the lock ordering and
lead from the locks `h` held to the locks `h2` held. -/
def Runs (h : List LockId) (s s2 : State) (h2 : List LockId) : Prop :=
  ∃ evs, s2.trace = s.trace ++ evs ∧ lock_run h evs = some h2

/-- Class of a record from the bits of its own page, `frame->upage`, in the page
directory of its owner. -/
def own_class (s : State) (f : Frame) : Int := get_class s f.thread.pagedir f.upage

/-- State with three records whose own pages (10 and 20 of thread 1, 30 of
thread 2) are resident, accessed and clean; page 100 is nowhere mapped, accessed
or dirty, and no page is free. -/
def st_own_two : State :=
  mk_state [mk_frame 4096 10 1 none, mk_frame 8192 20 1 none, mk_frame 12288 30 2 none] []
    (fun d p =>
      if d = 1 ∧ p = 10 then pte_mapped 4096 true
      else if d = 1 ∧ p = 20 then pte_mapped 8192 true
      else if d = 2 ∧ p = 30 then pte_mapped 12288 true
      else pte_empty)

/-- State with three records whose own pages (10 and 100 of thread 1, 100 of
thread 2) are resident, accessed and clean, and no free page. -/
def st_both_two : State :=
  mk_state [mk_frame 4096 10 1 none, mk_frame 8192 100 1 none, mk_frame 12288 100 2 none] []
    (fun d p =>
      if d = 1 ∧ p = 10 then pte_mapped 4096 true
      else if d = 1 ∧ p = 100 then pte_mapped 8192 true
      else if d = 2 ∧ p = 100 then pte_mapped 12288 true
      else pte_empty)

/-- State with two records: page 10 of thread 1, resident in frame 4096, accessed
and clean, and page 20 of thread 2, resident in frame 8192, neither accessed nor
dirty; page 100 is nowhere mapped and no page is free. -/
def st_own_one : State :=
  mk_state [mk_frame 4096 10 1 none, mk_frame 8192 20 2 none] []
    (fun d p =>
      if d = 1 ∧ p = 10 then pte_mapped 4096 true
      else if d = 2 ∧ p = 20 then pte_mapped 8192 false
      else pte_empty)
/-- Supplemental record as the spec words the write-back decision: dirty with a
`FILE` origin gives the file record with the same file coordinates and location
`FILE`; dirty otherwise gives the swap record of the slot; clean with an origin
gives the file record with the fields of the origin unchanged; clean without
origin gives the zero-page record. -/
def spec_record (dirty : Bool) (origin : Option Origin_info) (slot : Nat) : Suppl_page :=
  match dirty, origin with
  | true, some o =>
    if o.location = Location.FILE then
      Suppl_page.file o.source_file o.offset o.zero_after o.writable Location.FILE
    else Suppl_page.swap slot
  | true, none => Suppl_page.swap slot
  | false, some o =>
    Suppl_page.file o.source_file o.offset o.zero_after o.writable o.location
  | false, none => Suppl_page.zero
/-- The two states give the same accessed and dirty bits to page `upage` in every
page directory. -/
def same_bits (upage : Nat) (s s2 : State) : Prop :=
  ∀ d, pagedir_is_accessed s2 d upage = pagedir_is_accessed s d upage
    ∧ pagedir_is_dirty s2 d upage = pagedir_is_dirty s d upage

/-- State `st_shared` with other bits on the own page of the first record (page
10 of thread 1: not accessed, dirty) and on page 20 of thread 2 (accessed). -/
def st_shared_other : State :=
  mk_state [mk_frame 4096 10 1 none, mk_frame 8192 100 1 none, mk_frame 12288 100 2 none] []
    (fun d p =>
      if d = 1 ∧ p = 10 then { kpage := some 4096, accessed := false, dirty := true, suppl := none }
      else if d = 1 ∧ p = 100 then
        { kpage := some 8192, accessed := true, dirty := true, suppl := none }
      else if d = 2 ∧ p = 100 then
        { kpage := some 12288, accessed := false, dirty := true, suppl := none }
      else if d = 2 ∧ p = 20 then pte_bits true false
      else pte_empty)

/-! ## Theorems -/

@[simp] theorem frame_eq_probe (x a : Nat) :
    (!frame_less x a && !frame_less a x) = decide (x = a) := by
  unfold frame_less
  by_cases h : x = a
  · subst h; simp
  · have : x < a ∨ a < x := Nat.lt_or_gt_of_ne h
    rcases this with h1 | h1
    · simp [h1, h]
    · simp [h1, h]

theorem hash_find_eq (h : List Frame) (a : Nat) :
    hash_find h a = h.find? (fun f => decide (f.addr = a)) := by
  unfold hash_find; simp

theorem hash_find_some {h : List Frame} {a : Nat} {f : Frame} (hf : hash_find h a = some f) :
    f ∈ h ∧ f.addr = a := by
  rw [hash_find_eq] at hf
  have h1 := List.find?_some hf
  have h2 := List.mem_of_find?_eq_some hf
  simp at h1
  exact ⟨h2, h1⟩

theorem hash_find_none {h : List Frame} {a : Nat} :
    hash_find h a = none ↔ a ∉ h.map Frame.addr := by
  rw [hash_find_eq]
  simp

/-- C1: `get_class` is the classification of the spec applied to the two sampled
bits (4 accessed and dirty, 3 dirty only, 2 accessed only, 1 neither), so it
depends on the state only through these two bits, and its value is 1, 2, 3 or 4. -/
theorem get_class_spec (s : State) (pd page : Nat) :
    get_class s pd page = spec_class (pagedir_is_accessed s pd page) (pagedir_is_dirty s pd page)
    ∧ (get_class s pd page = 1 ∨ get_class s pd page = 2 ∨ get_class s pd page = 3
        ∨ get_class s pd page = 4) := by
  unfold get_class spec_class
  cases pagedir_is_accessed s pd page <;> cases pagedir_is_dirty s pd page <;> simp

theorem hash_delete_eq_filter (h : List Frame) (f : Frame) (hnd : (h.map Frame.addr).Nodup) :
    hash_delete h f = h.filter (fun g => !decide (g.addr = f.addr)) := by
  unfold hash_delete
  simp only [frame_eq_probe]
  induction h with
  | nil => rfl
  | cons g gs ih =>
    simp only [List.map_cons, List.nodup_cons] at hnd
    by_cases hg : g.addr = f.addr
    · rw [List.eraseP_cons_of_pos (by simpa using hg)]
      rw [List.filter_cons_of_neg (by simpa using hg)]
      symm
      rw [List.filter_eq_self]
      intro x hx
      have : x.addr ≠ g.addr := by
        intro hxa
        exact hnd.1 (hxa ▸ List.mem_map_of_mem Frame.addr hx)
      simpa [← hg] using this
    · rw [List.eraseP_cons_of_neg (by simpa using hg)]
      rw [List.filter_cons_of_pos (by simpa using hg)]
      rw [ih hnd.2]

theorem hash_find_filter (h : List Frame) (a b : Nat) :
    hash_find (h.filter (fun g => !decide (g.addr = a))) b
      = if b = a then none else hash_find h b := by
  simp only [hash_find_eq]
  induction h with
  | nil => simp
  | cons g gs ih =>
    by_cases hg : g.addr = a
    · rw [List.filter_cons_of_neg (by simpa using hg), ih]
      by_cases hb : b = a
      · simp [hb]
      · have : ¬ g.addr = b := by rw [hg]; exact fun h => hb h.symm
        simp [hb, List.find?_cons, this]
    · rw [List.filter_cons_of_pos (by simpa using hg)]
      by_cases hgb : g.addr = b
      · have hb : ¬ b = a := by rw [← hgb]; exact hg
        simp [List.find?_cons, hgb, hb]
      · rw [List.find?_cons_of_neg _ (by simpa using hgb), ih,
          List.find?_cons_of_neg _ (by simpa using hgb)]

theorem wf_keys_nodup {s : State} (h : s.wf) : (frame_keys s).Nodup :=
  (List.nodup_append.mp h).1

theorem frame_free_found (s : State) (a : Nat) (f : Frame) (hf : hash_find s.frames a = some f) :
    frame_free (some a) s =
      (true, { s with
        frames := hash_delete s.frames f,
        free := a :: s.free,
        trace := s.trace ++ [Event.acquire LockId.frames_lock, Event.release LockId.frames_lock] }) := by
  have ha := (hash_find_some hf).2
  simp [frame_free, frame_find, hf, lock_frames, unlock_frames, lock_acquire, lock_release,
    emit, palloc_free_page, ha]

theorem frame_free_absent (s : State) (addr : Option Nat)
    (h : frame_find addr s = none) : frame_free addr s = (false, s) := by
  simp [frame_free, h]

theorem frame_free_effect (s : State) (addr : Option Nat) (hnd : (frame_keys s).Nodup) :
    ((frame_free addr s).1 = true ↔ ∃ f ∈ s.frames, some f.addr = addr)
    ∧ ((frame_free addr s).1 = true →
        frame_find addr (frame_free addr s).2 = none
        ∧ (∃ a, addr = some a ∧ a ∈ (frame_free addr s).2.free
            ∧ (frame_free addr s).2.frames = s.frames.filter (fun g => !decide (g.addr = a)))
        ∧ ∀ b, b ≠ addr → frame_find b (frame_free addr s).2 = frame_find b s) := by
  unfold frame_keys at hnd
  cases addr with
  | none =>
    have h0 : frame_find none s = none := rfl
    rw [frame_free_absent s none h0]
    simp
  | some a =>
    cases hf : hash_find s.frames a with
    | none =>
      have h0 : frame_find (some a) s = none := hf
      rw [frame_free_absent s _ h0]
      have := hash_find_none.mp hf
      simp only [List.mem_map, not_exists, not_and] at this
      simp only [Bool.false_eq_true, Option.some.injEq, false_iff, not_exists, not_and,
        false_implies, and_true]
      exact fun f hfm => this f hfm
    | some f =>
      rw [frame_free_found s a f hf]
      obtain ⟨hmem, hfa⟩ := hash_find_some hf
      refine ⟨⟨fun _ => ⟨f, hmem, by rw [hfa]⟩, fun _ => rfl⟩, fun _ => ⟨?_, ⟨a, rfl, ?_, ?_⟩, ?_⟩⟩
      · simp [frame_find, hash_delete_eq_filter _ _ hnd, hash_find_filter, hfa]
      · simp
      · simp [hash_delete_eq_filter _ _ hnd, hfa]
      · intro b hb
        cases b with
        | none => rfl
        | some b =>
          have hba : b ≠ a := fun h => hb (by rw [h])
          simp [frame_find, hash_delete_eq_filter _ _ hnd, hash_find_filter, hfa, hba]

/-- C3: when no two records of the table share an address, `frame_free addr`
returns true exactly when `addr` is the address of a record; and when it returns
true, `frame_find addr` then returns `NULL`, `addr` is among the free pages of the
allocator, the table is the old one without the record of `addr` (the other
records are kept, in order), and `frame_find` of every other address is as before. -/
theorem frame_free_spec (s : State) (addr : Option Nat) (hnd : (frame_keys s).Nodup) :
    ((frame_free addr s).1 = true ↔ ∃ f ∈ s.frames, some f.addr = addr)
    ∧ ((frame_free addr s).1 = true →
        frame_find addr (frame_free addr s).2 = none
        ∧ (∃ a, addr = some a ∧ a ∈ (frame_free addr s).2.free
            ∧ (frame_free addr s).2.frames = s.frames.filter (fun g => !decide (g.addr = a)))
        ∧ ∀ b, b ≠ addr → frame_find b (frame_free addr s).2 = frame_find b s) :=
  frame_free_effect s addr hnd

/-- C4: `frame_free` on an address that is not the address of a record returns
false and leaves the whole state as it was (table, allocator and everything
else); and when no two records share an address, a second `frame_free addr`
right after a first one returns false and leaves the state of the first call. -/
theorem frame_free_idempotent (s : State) (addr : Option Nat) :
    ((¬ ∃ f ∈ s.frames, some f.addr = addr) → frame_free addr s = (false, s))
    ∧ ((frame_keys s).Nodup →
        frame_free addr (frame_free addr s).2 = (false, (frame_free addr s).2)) := by
  constructor
  · intro h
    apply frame_free_absent
    cases addr with
    | none => rfl
    | some a =>
      show hash_find s.frames a = none
      rw [hash_find_none]
      simp only [List.mem_map, not_exists, not_and]
      intro f hf hfa
      exact h ⟨f, hf, by rw [hfa]⟩
  · intro hwf
    apply frame_free_absent
    by_cases h1 : (frame_free addr s).1 = true
    · exact ((frame_free_effect s addr hwf).2 h1).1
    · cases hff : frame_find addr s with
      | none => rw [frame_free_absent s addr hff]; exact hff
      | some f =>
        exfalso; apply h1
        simp [frame_free, hff]

theorem page_dump_store_frames (f : Frame) (s : State) :
    (page_dump_store f s).2.frames = s.frames ∧ (page_dump_store f s).2.free = s.free := by
  unfold page_dump_store
  cases pagedir_is_dirty s f.thread.pagedir f.upage <;> cases f.origin with
  | none => simp [swap_slot, swap_store, emit]
  | some o =>
    by_cases ho : o.location = Location.FILE <;>
    simp [swap_slot, swap_store, emit, file_write_at, lock_acquire, lock_release, ho]

theorem page_dump_frames (pd upage : Nat) (f : Frame) (s : State) :
    (page_dump pd upage f s).frames = s.frames ∧ (page_dump pd upage f s).free = s.free := by
  have h := page_dump_store_frames f s
  simp [page_dump, lock_acquire, lock_release, emit, pagedir_clear_page, pagedir_set_page_suppl,
    pagedir_set_accessed, pte_update, h.1, h.2]

theorem evict_passA_frames (pd upage : Nat) (fs : List Frame) :
    ∀ (k : Option Nat) (s : State),
      (evict_passA pd upage fs k s).2.frames = s.frames
      ∧ (evict_passA pd upage fs k s).2.free = s.free := by
  induction fs with
  | nil => intro k s; simp [evict_passA]
  | cons f fs ih =>
    intro k s
    cases k with
    | some k => simp [evict_passA]
    | none =>
      by_cases hc : get_class s f.thread.pagedir upage = 1
      · simp only [evict_passA, hc, if_true]
        rw [(ih _ _).1, (ih _ _).2]
        exact page_dump_frames pd upage f s
      · simp only [evict_passA, hc, if_false]
        exact ih _ _

theorem evict_passB_frames (pd upage : Nat) (fs : List Frame) :
    ∀ (k : Option Nat) (s : State),
      (evict_passB pd upage fs k s).2.frames = s.frames
      ∧ (evict_passB pd upage fs k s).2.free = s.free := by
  induction fs with
  | nil => intro k s; simp [evict_passB]
  | cons f fs ih =>
    intro k s
    cases k with
    | some k => simp [evict_passB]
    | none =>
      by_cases hc : get_class s f.thread.pagedir upage = 3
      · simp only [evict_passB, hc, if_true]
        rw [(ih _ _).1, (ih _ _).2]
        exact page_dump_frames pd upage f s
      · simp only [evict_passB, hc, if_false]
        rw [(ih _ _).1, (ih _ _).2]
        simp [pagedir_set_accessed, pte_update]

theorem evict_rounds_frames (pd upage : Nat) (n : Nat) :
    ∀ (k : Option Nat) (s : State),
      (evict_rounds pd upage n k s).2.frames = s.frames
      ∧ (evict_rounds pd upage n k s).2.free = s.free := by
  induction n with
  | zero => intro k s; simp [evict_rounds]
  | succ n ih =>
    intro k s
    cases k with
    | some k => simp [evict_rounds]
    | none =>
      simp only [evict_rounds]
      rw [(ih _ _).1, (ih _ _).2, (evict_passB_frames _ _ _ _ _).1, (evict_passB_frames _ _ _ _ _).2]
      exact evict_passA_frames _ _ _ _ _

theorem evict_scan_frames (upage : Nat) (th : Thread) (s : State) :
    (evict_scan upage th s).2.frames = s.frames ∧ (evict_scan upage th s).2.free = s.free := by
  simp only [evict_scan, unlock_frames, lock_release, emit]
  rw [(evict_rounds_frames _ _ _ _ _).1, (evict_rounds_frames _ _ _ _ _).2]
  simp [lock_frames, lock_acquire, emit]

theorem inv_congr {pool : List Nat} {s s' : State} (hf : s'.frames = s.frames)
    (hp : s'.free = s.free) (h : Inv pool s) : Inv pool s' := by
  unfold Inv frame_keys at *
  rw [hf, hp]; exact h

theorem inv_frame_free {pool : List Nat} (s : State) (addr : Option Nat) (h : Inv pool s) :
    Inv pool (frame_free addr s).2 := by
  cases hff : frame_find addr s with
  | none => rw [frame_free_absent s addr hff]; exact h
  | some f =>
    cases addr with
    | none => simp [frame_find] at hff
    | some a =>
      have hf : hash_find s.frames a = some f := hff
      rw [frame_free_found s a f hf]
      obtain ⟨hmem, hfa⟩ := hash_find_some hf
      obtain ⟨x, l1, l2, _, hx, hl, herase⟩ := List.exists_of_eraseP (hash_find_some hf).1
        (p := fun g : Frame => !frame_less g.addr f.addr && !frame_less f.addr g.addr)
        (by simp [frame_less])
      have hxa : x.addr = a := by
        simp at hx; rw [hx, hfa]
      unfold Inv frame_keys at *
      simp only [hash_delete, herase]
      rw [hl] at h
      simp only [List.map_append, List.map_cons, hxa, List.append_assoc, List.cons_append] at h
      simp only [List.map_append, List.append_assoc]
      have hperm : (List.map Frame.addr l1 ++ (List.map Frame.addr l2 ++ a :: s.free)).Perm
          (List.map Frame.addr l1 ++ a :: (List.map Frame.addr l2 ++ s.free)) := by
        apply List.Perm.append_left
        exact List.perm_middle
      exact ⟨hperm.nodup_iff.mpr h.1, fun y hy => h.2 y (hperm.subset hy)⟩

theorem inv_evict {pool : List Nat} (upage : Nat) (th : Thread) (s : State) (h : Inv pool s) :
    Inv pool (evict upage th s) := by
  unfold evict
  apply inv_frame_free
  exact inv_congr (evict_scan_frames upage th s).1 (evict_scan_frames upage th s).2 h

theorem inv_alloc {pool : List Nat} (t : Thread) (upage : Nat) (zero : Bool)
    (origin : Option Origin_info) (s : State) (a : Nat) (rest : List Nat)
    (hfree : s.free = a :: rest) (h : Inv pool s) :
    Inv pool { s with
      frames := hash_insert s.frames { addr := a, upage := upage, origin := origin, thread := t },
      free := rest } := by
  unfold Inv frame_keys at *
  rw [hfree] at h
  have hnot : a ∉ s.frames.map Frame.addr := by
    intro hm
    have := (List.nodup_append.mp h.1).2.2
    exact this hm (List.mem_cons_self a rest)
  have hnone := hash_find_none.mpr hnot
  simp only [hash_insert, hnone, List.map_cons, List.cons_append]
  have hperm : (a :: (List.map Frame.addr s.frames ++ rest)).Perm
      (List.map Frame.addr s.frames ++ a :: rest) := List.perm_middle.symm
  exact ⟨hperm.nodup_iff.mpr h.1, fun y hy => h.2 y (hperm.subset hy)⟩

theorem palloc_get_page_nil (zero : Bool) (s : State) (h : s.free = []) :
    palloc_get_page zero s = (none, s) := by
  simp [palloc_get_page, h]

theorem palloc_get_page_cons (zero : Bool) (s : State) (a : Nat) (rest : List Nat)
    (h : s.free = a :: rest) :
    palloc_get_page zero s = (some a, { s with
      free := rest,
      mem := fun x => if zero && decide (a ≤ x) && decide (x < a + PGSIZE) then 0 else s.mem x }) := by
  simp [palloc_get_page, h]

theorem inv_frame_get {pool : List Nat} (t : Thread) (upage : Nat) (zero : Bool)
    (origin : Option Origin_info) (s : State) (h : Inv pool s) :
    Inv pool (frame_get t upage zero origin s).2 := by
  cases hfree : s.free with
  | cons a rest =>
    have := inv_alloc t upage zero origin s a rest hfree h
    unfold frame_get
    rw [palloc_get_page_cons zero s a rest hfree]
    exact inv_congr rfl rfl this
  | nil =>
    have h2 : Inv pool (evict upage t (lock_acquire LockId.eviction_lock s)) := by
      apply inv_evict
      exact inv_congr (s := s) rfl rfl h
    unfold frame_get
    rw [palloc_get_page_nil zero s hfree]
    cases hfree2 : (evict upage t (lock_acquire LockId.eviction_lock s)).free with
    | nil =>
      simp only []
      rw [palloc_get_page_nil zero _ hfree2]
      exact inv_congr rfl rfl h2
    | cons a rest =>
      have := inv_alloc t upage zero origin _ a rest hfree2 h2
      simp only []
      rw [palloc_get_page_cons zero _ a rest hfree2]
      exact inv_congr rfl rfl this

theorem inv_run {pool : List Nat} (ops : List Op) :
    ∀ s : State, Inv pool s → Inv pool (run ops s) := by
  induction ops with
  | nil => intro s h; exact h
  | cons op ops ih =>
    intro s h
    show Inv pool (run ops (step s op))
    apply ih
    cases op with
    | get t upage zero origin => exact inv_frame_get t upage zero origin s h
    | free addr => exact inv_frame_free s addr h

/-- C5: from `frame_init` on a state whose free pages are the pool (pairwise
distinct pages), after every finite sequence of `frame_get` and `frame_free`
calls no two records have the same address, every address of a record is a page
of the pool that the allocator does not hold as free, and the number of records
is at most the size of the pool. -/
theorem frame_table_invariant (pool : List Nat) (hpool : pool.Nodup) (s0 : State)
    (h0 : s0.free = pool) (ops : List Op) :
    (frame_keys (run ops (frame_init s0))).Nodup
    ∧ (∀ a ∈ frame_keys (run ops (frame_init s0)),
        a ∈ pool ∧ a ∉ (run ops (frame_init s0)).free)
    ∧ (run ops (frame_init s0)).frames.length ≤ pool.length := by
  have hinit : Inv pool (frame_init s0) := by
    unfold Inv frame_keys frame_init
    simp [h0, hpool]
  have h := inv_run ops _ hinit
  obtain ⟨hnd, hsub⟩ := h
  have hk := List.nodup_append.mp hnd
  refine ⟨hk.1, fun a ha => ⟨hsub a (List.mem_append_left _ ha), fun hf => hk.2.2 ha hf⟩, ?_⟩
  have hsp : (frame_keys (run ops (frame_init s0))).Subperm pool :=
    List.subperm_of_subset hk.1 (fun a ha => hsub a (List.mem_append_left _ ha))
  have := hsp.length_le
  simpa [frame_keys] using this

theorem evict_passA_some (pd upage : Nat) (fs : List Frame) (k : Nat) (s : State) :
    evict_passA pd upage fs (some k) s = (some k, s) := by
  cases fs <;> rfl

theorem evict_passB_some (pd upage : Nat) (fs : List Frame) (k : Nat) (s : State) :
    evict_passB pd upage fs (some k) s = (some k, s) := by
  cases fs <;> rfl

theorem evict_rounds_some (pd upage n k : Nat) (s : State) :
    evict_rounds pd upage n (some k) s = (some k, s) := by
  cases n <;> rfl

theorem evict_passA_none (pd upage : Nat) (fs : List Frame) (s : State)
    (h : ∀ g ∈ fs, get_class s g.thread.pagedir upage ≠ 1) :
    evict_passA pd upage fs none s = (none, s) := by
  induction fs with
  | nil => rfl
  | cons g gs ih =>
    have hg := h g (List.mem_cons_self g gs)
    simp only [evict_passA, hg, if_false]
    exact ih (fun x hx => h x (List.mem_cons_of_mem g hx))

theorem evict_passB_clean (pd upage : Nat) (fs : List Frame) :
    ∀ s : State, (∀ g ∈ fs, pagedir_is_dirty s g.thread.pagedir upage = false) →
      evict_passB pd upage fs none s = (none, clear_accessed_all upage fs s) := by
  induction fs with
  | nil =>
    intro s _
    simp [evict_passB, clear_accessed_all]
  | cons g gs ih =>
    intro s h
    have hg := h g (List.mem_cons_self g gs)
    have hc : get_class s g.thread.pagedir upage ≠ 3 := by
      simp [get_class, hg]
      split <;> simp
    simp only [evict_passB, hc, if_false]
    rw [ih]
    · simp only [clear_accessed_all, pagedir_set_accessed, pte_update, Prod.mk.injEq, true_and]
      congr 1
      funext d p
      by_cases hp : p = upage
      · by_cases hd : d = g.thread.pagedir
        · subst hd
          subst hp
          by_cases hm : ∃ a ∈ gs, a.thread.pagedir = g.thread.pagedir
          · simp [hm]
          · simp [hm]
        · by_cases hm : d ∈ gs.map (fun g => g.thread.pagedir)
          · have hm2 : ∃ a ∈ gs, a.thread.pagedir = d := by simpa using hm
            simp [hp, hd, hm2]
          · have hm2 : ¬ ∃ a ∈ gs, a.thread.pagedir = d := by simpa using hm
            have hm3 : ∀ x ∈ gs, ¬ x.thread.pagedir = d := by simpa using hm2
            simp [hp, hd, hm3]
      · simp [hp]
    · intro x hx
      have := h x (List.mem_cons_of_mem g hx)
      simp only [pagedir_is_dirty, pagedir_set_accessed, pte_update] at this ⊢
      split <;> simpa using this

/-- C2: in a well-formed state whose allocator has a free page, `frame_get`
returns the page `a` handed out by the allocator and does not evict: page tables
(bits, mappings, supplemental records), files and swap are unchanged, the only
lock taken is the frame-table lock, every record of the table is still there,
and `frame_find a` returns the record with `addr = a`, the requested virtual
page, the current thread and the origin passed in. -/
theorem frame_get_free_frame (t : Thread) (upage : Nat) (zero : Bool)
    (origin : Option Origin_info) (s : State) (a : Nat) (rest : List Nat)
    (hfree : s.free = a :: rest) (hwf : s.wf) :
    (palloc_get_page zero s).1 = some a
    ∧ (frame_get t upage zero origin s).1 = some a
    ∧ (frame_get t upage zero origin s).2.pagedirs = s.pagedirs
    ∧ (frame_get t upage zero origin s).2.files = s.files
    ∧ (frame_get t upage zero origin s).2.swap = s.swap
    ∧ (frame_get t upage zero origin s).2.swap_next = s.swap_next
    ∧ (frame_get t upage zero origin s).2.trace
        = s.trace ++ [Event.acquire LockId.frames_lock, Event.release LockId.frames_lock]
    ∧ (∀ f ∈ s.frames, f ∈ (frame_get t upage zero origin s).2.frames)
    ∧ (frame_get t upage zero origin s).2.free = rest
    ∧ frame_find (some a) (frame_get t upage zero origin s).2
        = some { addr := a, upage := upage, origin := origin, thread := t } := by
  have hnot : hash_find s.frames a = none := by
    rw [hash_find_none]
    intro hm
    unfold State.wf frame_keys at hwf
    rw [hfree] at hwf
    exact (List.nodup_append.mp hwf).2.2 hm (List.mem_cons_self a rest)
  unfold frame_get
  rw [palloc_get_page_cons zero s a rest hfree]
  simp [lock_frames, unlock_frames, lock_acquire, lock_release, emit, hash_insert, hnot,
    frame_find, hash_find_eq]
  exact fun f hf => Or.inr hf

theorem frame_get_free_frame_witness :
    st_one_free.free = [4096] ∧ st_one_free.frames = [] ∧ st_one_free.wf
    ∧ (frame_get (mk_thread 1) 100 true none st_one_free).1 = some 4096
    ∧ frame_find (some 4096) (frame_get (mk_thread 1) 100 true none st_one_free).2
        = some { addr := 4096, upage := 100, origin := none, thread := mk_thread 1 } :=
  ⟨rfl, rfl, by decide,
    (frame_get_free_frame (mk_thread 1) 100 true none st_one_free 4096 [] rfl (by decide)).2.1,
    (frame_get_free_frame (mk_thread 1) 100 true none st_one_free 4096 [] rfl
      (by decide)).2.2.2.2.2.2.2.2.2⟩

/-- C10: with no free page and an empty table, `frame_get` returns `NULL` after
one eviction attempt and one retry (the eviction lock is taken once), inserts no
record, and changes nothing but the trace of lock events: table, allocator, page
tables, memory, files and swap are as before. -/
theorem frame_get_exhausted_empty (t : Thread) (upage : Nat) (zero : Bool)
    (origin : Option Origin_info) (s : State) (hfree : s.free = []) (hfr : s.frames = []) :
    frame_get t upage zero origin s
      = (none, { s with trace := s.trace ++
          [Event.acquire LockId.eviction_lock, Event.acquire LockId.frames_lock,
           Event.release LockId.frames_lock, Event.release LockId.eviction_lock] })
    ∧ (frame_get t upage zero origin s).2.frames = []
    ∧ (frame_get t upage zero origin s).2.free = []
    ∧ (frame_get t upage zero origin s).2.pagedirs = s.pagedirs := by
  have h : frame_get t upage zero origin s
      = (none, { s with trace := s.trace ++
          [Event.acquire LockId.eviction_lock, Event.acquire LockId.frames_lock,
           Event.release LockId.frames_lock, Event.release LockId.eviction_lock] }) := by
    unfold frame_get
    rw [palloc_get_page_nil zero s hfree]
    simp [evict, evict_scan, evict_rounds, evict_passA, evict_passB, lock_frames, unlock_frames,
      lock_acquire, lock_release, emit, hfr, frame_free, frame_find, palloc_get_page, hfree]
  rw [h]
  simp [hfr, hfree]

theorem get_class_lock_frames (s : State) (pd page : Nat) :
    get_class (lock_frames s) pd page = get_class s pd page := rfl

/-- C8: when the own page of the victim is not dirty and its origin is `NULL`,
`page_dump` builds the zero-page record without touching the state, installs it
through `pagedir_set_page_suppl`, and writes nothing: files, swap, the next swap
slot and memory are unchanged and the only events are the acquire and release of
the semaphore of the owner. -/
theorem page_dump_clean_anonymous (pd upage : Nat) (f : Frame) (s : State)
    (hd : pagedir_is_dirty s f.thread.pagedir f.upage = false) (ho : f.origin = none) :
    page_dump_store f s = (Suppl_page.zero, s)
    ∧ ((page_dump pd upage f s).pagedirs f.thread.pagedir upage).suppl = some Suppl_page.zero
    ∧ (page_dump pd upage f s).files = s.files
    ∧ (page_dump pd upage f s).swap = s.swap
    ∧ (page_dump pd upage f s).swap_next = s.swap_next
    ∧ (page_dump pd upage f s).mem = s.mem
    ∧ (page_dump pd upage f s).trace
        = s.trace ++ [Event.acquire (LockId.pagedir_mod f.thread.pagedir_mod),
                      Event.release (LockId.pagedir_mod f.thread.pagedir_mod)] := by
  have hst : page_dump_store f s = (Suppl_page.zero, s) := by
    simp [page_dump_store, hd, ho]
  refine ⟨hst, ?_⟩
  simp [page_dump, hst, lock_acquire, lock_release, emit, pagedir_clear_page,
    pagedir_set_page_suppl, pagedir_set_accessed, pte_update]

theorem page_dump_clean_anonymous_witness :
    pagedir_is_dirty st_single (mk_frame 4096 10 1 none).thread.pagedir
        (mk_frame 4096 10 1 none).upage = false
    ∧ (mk_frame 4096 10 1 none).origin = none
    ∧ ((page_dump 2 100 (mk_frame 4096 10 1 none) st_single).pagedirs 1 100).suppl
        = some Suppl_page.zero
    ∧ (page_dump 2 100 (mk_frame 4096 10 1 none) st_single).files = st_single.files :=
  ⟨rfl, rfl,
    (page_dump_clean_anonymous 2 100 (mk_frame 4096 10 1 none) st_single rfl rfl).2.1,
    (page_dump_clean_anonymous 2 100 (mk_frame 4096 10 1 none) st_single rfl rfl).2.2.1⟩

/-- C9: when the own page of the victim is dirty and its origin has location
`FILE`, `page_dump` makes one `file_write_at` at `origin.offset` of
`origin.zero_after` bytes from the frame: afterwards byte `offset + i` of the
file is byte `i` of the frame for every `i < zero_after`, every other byte of
every file is unchanged, swap is not used, and the installed record is the file
record with the same `source_file`, `offset`, `zero_after`, `writable` and
location `FILE`. -/
theorem page_dump_dirty_file (pd upage : Nat) (f : Frame) (o : Origin_info) (s : State)
    (hd : pagedir_is_dirty s f.thread.pagedir f.upage = true) (ho : f.origin = some o)
    (hl : o.location = Location.FILE) :
    (∀ i, i < o.zero_after →
        (page_dump pd upage f s).files o.source_file (o.offset + i) = s.mem (f.addr + i))
    ∧ (∀ file i, ¬ (file = o.source_file ∧ o.offset ≤ i ∧ i < o.offset + o.zero_after) →
        (page_dump pd upage f s).files file i = s.files file i)
    ∧ (page_dump pd upage f s).trace
        = s.trace ++ [Event.acquire LockId.filesys_lock,
                      Event.file_write o.source_file f.addr o.zero_after o.offset,
                      Event.release LockId.filesys_lock,
                      Event.acquire (LockId.pagedir_mod f.thread.pagedir_mod),
                      Event.release (LockId.pagedir_mod f.thread.pagedir_mod)]
    ∧ (page_dump pd upage f s).swap = s.swap
    ∧ (page_dump pd upage f s).swap_next = s.swap_next
    ∧ (page_dump pd upage f s).mem = s.mem
    ∧ ((page_dump pd upage f s).pagedirs f.thread.pagedir upage).suppl
        = some (Suppl_page.file o.source_file o.offset o.zero_after o.writable Location.FILE) := by
  have hst : page_dump_store f s
      = (Suppl_page.file o.source_file o.offset o.zero_after o.writable Location.FILE,
          lock_release LockId.filesys_lock
            (file_write_at o.source_file f.addr o.zero_after o.offset
              (lock_acquire LockId.filesys_lock s))) := by
    simp [page_dump_store, hd, ho, hl]
  refine ⟨?_, ?_, ?_⟩
  · intro i hi
    simp [page_dump, hst, lock_acquire, lock_release, emit, pagedir_clear_page,
      pagedir_set_page_suppl, pagedir_set_accessed, pte_update, file_write_at, hi]
  · intro file i hne
    simp only [page_dump, hst, lock_acquire, lock_release, emit, pagedir_clear_page,
      pagedir_set_page_suppl, pagedir_set_accessed, pte_update, file_write_at]
    rw [if_neg hne]
  · simp [page_dump, hst, lock_acquire, lock_release, emit, pagedir_clear_page,
      pagedir_set_page_suppl, pagedir_set_accessed, pte_update, file_write_at]

theorem page_dump_dirty_file_witness :
    pagedir_is_dirty st_dirty (mk_frame 4096 10 1 (some origin_demo)).thread.pagedir
        (mk_frame 4096 10 1 (some origin_demo)).upage = true
    ∧ (mk_frame 4096 10 1 (some origin_demo)).origin = some origin_demo
    ∧ origin_demo.location = Location.FILE
    ∧ (∀ i, i < origin_demo.zero_after →
        (page_dump 2 100 (mk_frame 4096 10 1 (some origin_demo)) st_dirty).files
            origin_demo.source_file (origin_demo.offset + i)
          = st_dirty.mem ((mk_frame 4096 10 1 (some origin_demo)).addr + i)) :=
  ⟨rfl, rfl, rfl,
    (page_dump_dirty_file 2 100 (mk_frame 4096 10 1 (some origin_demo)) origin_demo st_dirty
      rfl rfl rfl).1⟩

theorem frame_free_spec_witness :
    (frame_keys st_two).Nodup
    ∧ ((frame_free (some 4096) st_two).1 = true ↔ ∃ f ∈ st_two.frames, some f.addr = some 4096)
    ∧ (frame_free (some 4096) st_two).1 = true :=
  ⟨by decide, (frame_free_spec st_two (some 4096) (by decide)).1, by decide⟩

theorem frame_free_idempotent_witness :
    (¬ ∃ f ∈ st_two.frames, some f.addr = some 12288)
    ∧ frame_free (some 12288) st_two = (false, st_two)
    ∧ (frame_keys st_two).Nodup
    ∧ frame_free (some 4096) (frame_free (some 4096) st_two).2
        = (false, (frame_free (some 4096) st_two).2) :=
  ⟨by decide, (frame_free_idempotent st_two (some 12288)).1 (by decide), by decide,
    (frame_free_idempotent st_two (some 4096)).2 (by decide)⟩

theorem frame_table_invariant_witness :
    [4096, 8192].Nodup ∧ st_pool.free = [4096, 8192]
    ∧ (frame_keys (run ops_demo (frame_init st_pool))).Nodup
    ∧ (run ops_demo (frame_init st_pool)).frames.length ≤ [4096, 8192].length :=
  ⟨by decide, rfl,
    (frame_table_invariant [4096, 8192] (by decide) st_pool rfl ops_demo).1,
    (frame_table_invariant [4096, 8192] (by decide) st_pool rfl ops_demo).2.2⟩

theorem frame_get_exhausted_empty_witness :
    st_exhausted.free = [] ∧ st_exhausted.frames = []
    ∧ (frame_get (mk_thread 1) 100 false none st_exhausted).1 = none
    ∧ (frame_get (mk_thread 1) 100 false none st_exhausted).2.frames = [] :=
  ⟨rfl, rfl,
    congrArg Prod.fst (frame_get_exhausted_empty (mk_thread 1) 100 false none st_exhausted
      rfl rfl).1,
    (frame_get_exhausted_empty (mk_thread 1) 100 false none st_exhausted rfl rfl).2.1⟩

theorem evict_passA_result (pd upage : Nat) (fs : List Frame) :
    ∀ s : State,
      (evict_passA pd upage fs none s = (none, s)
          ∧ ∀ g ∈ fs, get_class s g.thread.pagedir upage ≠ 1)
      ∨ ∃ g ∈ fs, (evict_passA pd upage fs none s).1 = some g.addr := by
  induction fs with
  | nil => intro s; left; exact ⟨rfl, by simp⟩
  | cons f fs ih =>
    intro s
    by_cases hc : get_class s f.thread.pagedir upage = 1
    · right
      refine ⟨f, List.mem_cons_self f fs, ?_⟩
      simp only [evict_passA, hc, if_true, evict_passA_some]
    · rcases ih s with ⟨h1, h2⟩ | ⟨g, hg, h⟩
      · left
        refine ⟨by simp only [evict_passA, hc, if_false]; exact h1, ?_⟩
        intro g hg
        rcases List.mem_cons.mp hg with rfl | hg
        · exact hc
        · exact h2 g hg
      · right
        refine ⟨g, List.mem_cons_of_mem f hg, ?_⟩
        simp only [evict_passA, hc, if_false]
        exact h

theorem clear_accessed_all_cons (upage : Nat) (g : Frame) (gs : List Frame) (s : State) :
    clear_accessed_all upage gs (pagedir_set_accessed g.thread.pagedir upage false s)
      = clear_accessed_all upage (g :: gs) s := by
  simp only [clear_accessed_all, pagedir_set_accessed, pte_update]
  congr 1
  funext d p
  by_cases hp : p = upage
  · by_cases hd : d = g.thread.pagedir
    · subst hd
      subst hp
      by_cases hm : ∃ a ∈ gs, a.thread.pagedir = g.thread.pagedir
      · simp [hm]
      · simp [hm]
    · by_cases hm : d ∈ gs.map (fun g => g.thread.pagedir)
      · have hm2 : ∃ a ∈ gs, a.thread.pagedir = d := by simpa using hm
        simp [hp, hd, hm2]
      · have hm2 : ¬ ∃ a ∈ gs, a.thread.pagedir = d := by simpa using hm
        have hm3 : ∀ x ∈ gs, ¬ x.thread.pagedir = d := by simpa using hm2
        simp [hp, hd, hm3]
  · simp [hp]

theorem evict_passB_result (pd upage : Nat) (fs : List Frame) :
    ∀ s : State,
      evict_passB pd upage fs none s = (none, clear_accessed_all upage fs s)
      ∨ ∃ g ∈ fs, (evict_passB pd upage fs none s).1 = some g.addr := by
  induction fs with
  | nil => intro s; left; simp [evict_passB, clear_accessed_all]
  | cons f fs ih =>
    intro s
    by_cases hc : get_class s f.thread.pagedir upage = 3
    · right
      refine ⟨f, List.mem_cons_self f fs, ?_⟩
      simp only [evict_passB, hc, if_true, evict_passB_some]
    · rcases ih (pagedir_set_accessed f.thread.pagedir upage false s) with h | ⟨g, hg, h⟩
      · left
        simp only [evict_passB, hc, if_false]
        rw [h, clear_accessed_all_cons]
      · right
        refine ⟨g, List.mem_cons_of_mem f hg, ?_⟩
        simp only [evict_passB, hc, if_false]
        exact h

theorem get_class_cleared (upage : Nat) (fs : List Frame) (s : State) (g : Frame)
    (hg : g ∈ fs) :
    get_class (clear_accessed_all upage fs s) g.thread.pagedir upage = 1
    ∨ get_class (clear_accessed_all upage fs s) g.thread.pagedir upage = 3 := by
  have hm : ∃ a ∈ fs, a.thread.pagedir = g.thread.pagedir := ⟨g, hg, rfl⟩
  have hacc : pagedir_is_accessed (clear_accessed_all upage fs s) g.thread.pagedir upage
      = false := by
    simp [pagedir_is_accessed, clear_accessed_all, hm]
  unfold get_class
  rw [hacc]
  cases pagedir_is_dirty (clear_accessed_all upage fs s) g.thread.pagedir upage <;> simp

theorem evict_rounds_succ (pd upage n : Nat) (s : State) :
    evict_rounds pd upage (n + 1) none s
      = evict_rounds pd upage n
          (evict_passB pd upage (evict_passA pd upage s.frames none s).2.frames
            (evict_passA pd upage s.frames none s).1 (evict_passA pd upage s.frames none s).2).1
          (evict_passB pd upage (evict_passA pd upage s.frames none s).2.frames
            (evict_passA pd upage s.frames none s).1 (evict_passA pd upage s.frames none s).2).2 :=
  rfl

theorem evict_rounds_of_passA (pd upage n k : Nat) (s : State)
    (h : (evict_passA pd upage s.frames none s).1 = some k) :
    evict_rounds pd upage (n + 1) none s
      = (some k, (evict_passA pd upage s.frames none s).2) := by
  rw [evict_rounds_succ, h, evict_passB_some, evict_rounds_some]

theorem evict_rounds_of_passB (pd upage n k : Nat) (s : State)
    (hA : evict_passA pd upage s.frames none s = (none, s))
    (h : (evict_passB pd upage s.frames none s).1 = some k) :
    evict_rounds pd upage (n + 1) none s
      = (some k, (evict_passB pd upage s.frames none s).2) := by
  rw [evict_rounds_succ, hA]
  simp only []
  rw [h, evict_rounds_some]

theorem evict_rounds_of_none (pd upage n : Nat) (s s2 : State)
    (hA : evict_passA pd upage s.frames none s = (none, s))
    (hB : evict_passB pd upage s.frames none s = (none, s2)) :
    evict_rounds pd upage (n + 1) none s = evict_rounds pd upage n none s2 := by
  rw [evict_rounds_succ, hA]
  simp only []
  rw [hB]

theorem evict_round_cleared (pd upage : Nat) (f : Frame) (fs : List Frame) (s : State)
    (n : Nat) (hfr : s.frames = f :: fs) :
    ∃ g ∈ s.frames,
      (evict_rounds pd upage (n + 1) none (clear_accessed_all upage s.frames s)).1
        = some g.addr := by
  have hfr2 : (clear_accessed_all upage s.frames s).frames = s.frames := rfl
  rcases evict_passA_result pd upage s.frames (clear_accessed_all upage s.frames s) with
    ⟨h1, h2⟩ | ⟨g, hg, h⟩
  · have hf : f ∈ s.frames := by rw [hfr]; exact List.mem_cons_self f fs
    have h3 : get_class (clear_accessed_all upage s.frames s) f.thread.pagedir upage = 3 := by
      rcases get_class_cleared upage s.frames s f hf with h | h
      · exact absurd h (h2 f hf)
      · exact h
    refine ⟨f, hf, ?_⟩
    have hB : evict_passB pd upage s.frames none (clear_accessed_all upage s.frames s)
        = (some f.addr, page_dump pd upage f (clear_accessed_all upage s.frames s)) := by
      rw [hfr] at h3 ⊢
      simp only [evict_passB, h3, if_true, evict_passB_some]
    rw [evict_rounds_of_passB pd upage n f.addr _ (by rw [hfr2]; exact h1)
      (by rw [hfr2, hB])]
  · refine ⟨g, hg, ?_⟩
    rw [evict_rounds_of_passA pd upage n g.addr _ (by rw [hfr2]; exact h)]

theorem evict_rounds_victim (pd upage : Nat) (f : Frame) (fs : List Frame) (s : State)
    (hfr : s.frames = f :: fs) :
    ∃ g ∈ s.frames, (evict_rounds pd upage 2 none s).1 = some g.addr := by
  rcases evict_passA_result pd upage s.frames s with ⟨h1, _⟩ | ⟨g, hg, h⟩
  · rcases evict_passB_result pd upage s.frames s with hB | ⟨g, hg, h⟩
    · rw [evict_rounds_of_none pd upage 1 s _ h1 hB]
      exact evict_round_cleared pd upage f fs s 0 hfr
    · refine ⟨g, hg, ?_⟩
      rw [evict_rounds_of_passB pd upage 1 g.addr s h1 h]
  · refine ⟨g, hg, ?_⟩
    rw [evict_rounds_of_passA pd upage 1 g.addr s h]

theorem evict_scan_victim (upage : Nat) (th : Thread) (s : State) (f : Frame)
    (fs : List Frame) (hfr : s.frames = f :: fs) :
    ∃ g ∈ s.frames, (evict_scan upage th s).1 = some g.addr := by
  have hfr1 : (lock_frames s).frames = f :: fs := hfr
  obtain ⟨g, hg, h⟩ := evict_rounds_victim th.pagedir upage f fs (lock_frames s) hfr1
  exact ⟨g, hg, h⟩
theorem evict_scan_empty (upage : Nat) (th : Thread) (s : State) (hfr : s.frames = []) :
    evict_scan upage th s
      = (none, { s with trace := s.trace ++
          [Event.acquire LockId.frames_lock, Event.release LockId.frames_lock] }) := by
  simp [evict_scan, evict_rounds, lock_frames, unlock_frames, lock_acquire, lock_release, emit,
    hfr, evict_passA, evict_passB]

theorem evict_scan_victim_mem (upage : Nat) (th : Thread) (s : State) :
    (evict_scan upage th s).1 = none
    ∨ ∃ g ∈ s.frames, (evict_scan upage th s).1 = some g.addr := by
  cases hfr : s.frames with
  | nil => left; rw [evict_scan_empty upage th s hfr]
  | cons f fs =>
    right
    have := evict_scan_victim upage th s f fs hfr
    rw [hfr] at this
    exact this

theorem evict_effect (upage : Nat) (th : Thread) (s : State) (g : Frame) (hg : g ∈ s.frames)
    (hv : (evict_scan upage th s).1 = some g.addr) (hnd : (frame_keys s).Nodup) :
    (evict upage th s).frames = s.frames.filter (fun x => !decide (x.addr = g.addr))
    ∧ (evict upage th s).free = g.addr :: s.free
    ∧ (evict upage th s).pagedirs = (evict_scan upage th s).2.pagedirs
    ∧ (evict upage th s).frames.length + 1 = s.frames.length := by
  have hfr := (evict_scan_frames upage th s).1
  have hfree := (evict_scan_frames upage th s).2
  have hkey : g.addr ∈ s.frames.map Frame.addr := List.mem_map_of_mem Frame.addr hg
  cases hf : hash_find (evict_scan upage th s).2.frames g.addr with
  | none =>
    rw [hfr] at hf
    exact absurd hkey (hash_find_none.mp hf)
  | some f =>
    have hfa := (hash_find_some hf).2
    have hfm := (hash_find_some hf).1
    have hev : evict upage th s = (frame_free (some g.addr) (evict_scan upage th s).2).2 := by
      show (frame_free (evict_scan upage th s).1 (evict_scan upage th s).2).2 = _
      rw [hv]
    rw [hev, frame_free_found _ g.addr f hf]
    simp only [hfr, hfree, true_and]
    unfold frame_keys at hnd
    refine ⟨?_, ?_⟩
    · rw [hash_delete_eq_filter _ _ hnd, hfa]
    · unfold hash_delete
      rw [hfr] at hfm
      rw [List.length_eraseP_of_mem hfm (by simp [frame_less])]
      have : 0 < s.frames.length := List.length_pos_of_mem hg
      omega
/-- C11: on a table that is not empty `evict` always selects a victim within its
two outer rounds, whatever the accessed and dirty bits are: the two rounds never
end with `kpage` still `NULL`, and the victim is the address of a record of the
table. -/
theorem evict_always_selects (upage : Nat) (th : Thread) (s : State)
    (hne : s.frames ≠ []) :
    (evict_rounds th.pagedir upage 2 none (lock_frames s)).1 ≠ none
    ∧ ∃ g ∈ s.frames, (evict_scan upage th s).1 = some g.addr := by
  cases hfr : s.frames with
  | nil => exact absurd hfr hne
  | cons f fs =>
    obtain ⟨g, hg, h⟩ := evict_scan_victim upage th s f fs hfr
    rw [hfr] at hg
    refine ⟨?_, g, hg, h⟩
    have h2 : (evict_rounds th.pagedir upage 2 none (lock_frames s)).1 = some g.addr := h
    rw [h2]
    exact Option.some_ne_none _

theorem evict_always_selects_witness :
    st_three.frames ≠ []
    ∧ (evict_rounds (mk_thread 3).pagedir 100 2 none (lock_frames st_three)).1 ≠ none :=
  ⟨by decide, (evict_always_selects 100 (mk_thread 3) st_three (by decide)).1⟩

/-- C12: on a table that is not empty and has no two records with the same
address, one call of `evict` frees exactly one frame: the victim `g` is a record
of the table, the table afterwards is the old one without `g` and with every
other record, so it has one record less and no record with the address of `g`,
the free pages of the allocator are the old ones plus the address of `g`, and
no later `evict` on the resulting state selects that address. -/
theorem evict_frees_one (upage : Nat) (th : Thread) (s : State) (hne : s.frames ≠ [])
    (hnd : (frame_keys s).Nodup) :
    ∃ g ∈ s.frames,
      (evict_scan upage th s).1 = some g.addr
      ∧ (∀ x, x ∈ (evict upage th s).frames ↔ (x ∈ s.frames ∧ x ≠ g))
      ∧ (evict upage th s).frames = s.frames.filter (fun x => !decide (x.addr = g.addr))
      ∧ (evict upage th s).frames.length + 1 = s.frames.length
      ∧ (evict upage th s).free = g.addr :: s.free
      ∧ g.addr ∉ frame_keys (evict upage th s)
      ∧ ∀ upage2 th2, (evict_scan upage2 th2 (evict upage th s)).1 ≠ some g.addr := by
  cases hfr : s.frames with
  | nil => exact absurd hfr hne
  | cons f fs =>
    obtain ⟨g, hg, hv⟩ := evict_scan_victim upage th s f fs hfr
    obtain ⟨h1, h2, _, h4⟩ := evict_effect upage th s g hg hv hnd
    rw [← hfr]
    have hkey : g.addr ∉ frame_keys (evict upage th s) := by
      unfold frame_keys
      rw [h1]
      simp
    have hinj : ∀ x ∈ s.frames, x.addr = g.addr → x = g := by
      intro x hx hxa
      exact List.inj_on_of_nodup_map hnd hx hg hxa
    refine ⟨g, hg, hv, ?_, h1, h4, h2, hkey, ?_⟩
    · intro x
      rw [h1]
      simp only [List.mem_filter, Bool.not_eq_true', decide_eq_false_iff_not]
      constructor
      · rintro ⟨hx, hxa⟩
        exact ⟨hx, fun h => hxa (by rw [h])⟩
      · rintro ⟨hx, hxg⟩
        exact ⟨hx, fun h => hxg (hinj x hx h)⟩
    · intro upage2 th2 hsel
      rcases evict_scan_victim_mem upage2 th2 (evict upage th s) with h | ⟨x, hx, h⟩
      · rw [h] at hsel; exact Option.noConfusion hsel
      · rw [h] at hsel
        apply hkey
        have : x.addr = g.addr := Option.some.inj hsel
        rw [← this]
        exact List.mem_map_of_mem Frame.addr hx

theorem evict_frees_one_witness :
    st_three.frames ≠ [] ∧ (frame_keys st_three).Nodup
    ∧ ∃ g ∈ st_three.frames,
      (evict_scan 100 (mk_thread 3) st_three).1 = some g.addr
      ∧ (∀ x, x ∈ (evict 100 (mk_thread 3) st_three).frames ↔ (x ∈ st_three.frames ∧ x ≠ g))
      ∧ (evict 100 (mk_thread 3) st_three).frames
          = st_three.frames.filter (fun x => !decide (x.addr = g.addr))
      ∧ (evict 100 (mk_thread 3) st_three).frames.length + 1 = st_three.frames.length
      ∧ (evict 100 (mk_thread 3) st_three).free = g.addr :: st_three.free
      ∧ g.addr ∉ frame_keys (evict 100 (mk_thread 3) st_three)
      ∧ ∀ upage2 th2,
          (evict_scan upage2 th2 (evict 100 (mk_thread 3) st_three)).1 ≠ some g.addr :=
  ⟨by decide, by decide, evict_frees_one 100 (mk_thread 3) st_three (by decide) (by decide)⟩

/-- C13: evaluation of the code where the requesting page (100) differs from the
own page of the victim (page 10 of thread 1, in frame 4096).  `page_dump` leaves
the entry of the own page as it was, still resident in frame 4096, accessed and
without supplemental record, and instead unmaps page 100 of the owner (resident
in frame 8192 before) and installs the record there; after `evict` frame 4096 is
free in the allocator while page 10 is still mapped to it. -/
theorem page_dump_wrong_page :
    (page_dump 2 100 (mk_frame 4096 10 1 none) st_mapped).pagedirs 1 10
        = pte_mapped 4096 true
    ∧ (st_mapped.pagedirs 1 100).kpage = some 8192
    ∧ (page_dump 2 100 (mk_frame 4096 10 1 none) st_mapped).pagedirs 1 100
        = { kpage := none, accessed := false, dirty := false, suppl := some Suppl_page.zero }
    ∧ (evict_scan 100 (mk_thread 2) st_mapped).1 = some 4096
    ∧ (evict 100 (mk_thread 2) st_mapped).free = [4096]
    ∧ ((evict 100 (mk_thread 2) st_mapped).pagedirs 1 10).kpage = some 4096 := by
  refine ⟨by decide, by decide, by decide, by decide, by decide, by decide⟩

/-- C16: when the own page of the victim is dirty and its origin is `NULL` or has
a location other than `FILE`, `page_dump` requests a swap slot for the frame
(the next unused one), stores the page of the frame into that slot, installs the
swap record of that same slot, and writes to no file: the only events are the
slot request, the store, and the acquire and release of the semaphore of the
owner. -/
theorem page_dump_dirty_swap (pd upage : Nat) (f : Frame) (s : State)
    (hd : pagedir_is_dirty s f.thread.pagedir f.upage = true)
    (ho : ∀ o, f.origin = some o → o.location ≠ Location.FILE) :
    (page_dump pd upage f s).trace
        = s.trace ++ [Event.swap_alloc s.swap_next f.addr,
                      Event.swap_write s.swap_next f.addr,
                      Event.acquire (LockId.pagedir_mod f.thread.pagedir_mod),
                      Event.release (LockId.pagedir_mod f.thread.pagedir_mod)]
    ∧ (∀ i, i < PGSIZE → (page_dump pd upage f s).swap s.swap_next i = s.mem (f.addr + i))
    ∧ (∀ k i, ¬ (k = s.swap_next ∧ i < PGSIZE) →
        (page_dump pd upage f s).swap k i = s.swap k i)
    ∧ (page_dump pd upage f s).swap_next = s.swap_next + 1
    ∧ (page_dump pd upage f s).files = s.files
    ∧ (page_dump pd upage f s).mem = s.mem
    ∧ ((page_dump pd upage f s).pagedirs f.thread.pagedir upage).suppl
        = some (Suppl_page.swap s.swap_next) := by
  have hst : page_dump_store f s
      = (Suppl_page.swap s.swap_next,
          swap_store { slot := s.swap_next, addr := f.addr } (swap_slot f s).2) := by
    unfold page_dump_store
    rw [hd]
    cases hor : f.origin with
    | none => simp [swap_slot]
    | some o =>
      have := ho o hor
      simp [swap_slot, this]
  refine ⟨?_, ?_, ?_, ?_⟩
  · simp [page_dump, hst, lock_acquire, lock_release, emit, pagedir_clear_page,
      pagedir_set_page_suppl, pagedir_set_accessed, pte_update, swap_slot, swap_store]
  · intro i hi
    simp [page_dump, hst, lock_acquire, lock_release, emit, pagedir_clear_page,
      pagedir_set_page_suppl, pagedir_set_accessed, pte_update, swap_slot, swap_store, hi]
  · intro k i hne
    simp only [page_dump, hst, lock_acquire, lock_release, emit, pagedir_clear_page,
      pagedir_set_page_suppl, pagedir_set_accessed, pte_update, swap_slot, swap_store]
    rw [if_neg hne]
  · simp [page_dump, hst, lock_acquire, lock_release, emit, pagedir_clear_page,
      pagedir_set_page_suppl, pagedir_set_accessed, pte_update, swap_slot, swap_store]
theorem page_dump_dirty_swap_witness :
    pagedir_is_dirty st_dirty_anon (mk_frame 4096 10 1 none).thread.pagedir
        (mk_frame 4096 10 1 none).upage = true
    ∧ (∀ o, (mk_frame 4096 10 1 none).origin = some o → o.location ≠ Location.FILE)
    ∧ ((page_dump 2 100 (mk_frame 4096 10 1 none) st_dirty_anon).pagedirs
          (mk_frame 4096 10 1 none).thread.pagedir 100).suppl
        = some (Suppl_page.swap st_dirty_anon.swap_next)
    ∧ (page_dump 2 100 (mk_frame 4096 10 1 none) st_dirty_anon).files = st_dirty_anon.files :=
  ⟨rfl, fun o h => Option.noConfusion h,
    (page_dump_dirty_swap 2 100 (mk_frame 4096 10 1 none) st_dirty_anon rfl
      (fun o h => Option.noConfusion h)).2.2.2.2.2.2,
    (page_dump_dirty_swap 2 100 (mk_frame 4096 10 1 none) st_dirty_anon rfl
      (fun o h => Option.noConfusion h)).2.2.2.2.1⟩

theorem page_dump_store_writes (f : Frame) (s : State) :
    storage_writes (page_dump_store f s).2.trace
      = storage_writes s.trace
        + (if pagedir_is_dirty s f.thread.pagedir f.upage then 1 else 0) := by
  unfold page_dump_store storage_writes
  cases pagedir_is_dirty s f.thread.pagedir f.upage <;> cases f.origin with
  | none =>
    simp [swap_slot, swap_store, emit, List.countP_append, List.countP_cons, is_storage_write]
  | some o =>
    by_cases ho : o.location = Location.FILE <;>
    simp [swap_slot, swap_store, emit, file_write_at, lock_acquire, lock_release, ho,
      List.countP_append, List.countP_cons, is_storage_write]

theorem page_dump_writes (pd upage : Nat) (f : Frame) (s : State) :
    storage_writes (page_dump pd upage f s).trace
      = storage_writes s.trace
        + (if pagedir_is_dirty s f.thread.pagedir f.upage then 1 else 0) := by
  rw [← page_dump_store_writes f s]
  simp [page_dump, storage_writes, lock_acquire, lock_release, emit, pagedir_clear_page,
    pagedir_set_page_suppl, pagedir_set_accessed, pte_update, List.countP_append,
    List.countP_cons, is_storage_write]

/-- C17: when the own page of the victim is not dirty and its origin is not
`NULL`, `page_dump` installs the file record with the `source_file`, `offset`,
`zero_after`, `writable` and `location` of the origin (the location is copied,
whatever it is), and writes nothing: files, swap, the next swap slot and memory
are unchanged and the only events are the acquire and release of the semaphore
of the owner.  For every record and state, `page_dump` makes exactly one write
to persistent storage when the own page is dirty and none when it is clean. -/
theorem page_dump_clean_origin (pd upage : Nat) (f : Frame) (o : Origin_info) (s : State)
    (hd : pagedir_is_dirty s f.thread.pagedir f.upage = false) (ho : f.origin = some o) :
    ((page_dump pd upage f s).pagedirs f.thread.pagedir upage).suppl
        = some (Suppl_page.file o.source_file o.offset o.zero_after o.writable o.location)
    ∧ (page_dump pd upage f s).files = s.files
    ∧ (page_dump pd upage f s).swap = s.swap
    ∧ (page_dump pd upage f s).swap_next = s.swap_next
    ∧ (page_dump pd upage f s).mem = s.mem
    ∧ (page_dump pd upage f s).trace
        = s.trace ++ [Event.acquire (LockId.pagedir_mod f.thread.pagedir_mod),
                      Event.release (LockId.pagedir_mod f.thread.pagedir_mod)]
    ∧ ∀ (g : Frame) (x : State),
        storage_writes (page_dump pd upage g x).trace
          = storage_writes x.trace
            + (if pagedir_is_dirty x g.thread.pagedir g.upage then 1 else 0) := by
  have hst : page_dump_store f s
      = (Suppl_page.file o.source_file o.offset o.zero_after o.writable o.location, s) := by
    simp [page_dump_store, hd, ho]
  refine ⟨?_, ?_, ?_, ?_, ?_, ?_, fun g x => page_dump_writes pd upage g x⟩ <;>
  simp [page_dump, hst, lock_acquire, lock_release, emit, pagedir_clear_page,
    pagedir_set_page_suppl, pagedir_set_accessed, pte_update]

theorem page_dump_clean_origin_witness :
    pagedir_is_dirty st_clean_origin (mk_frame 4096 10 1 (some origin_exec)).thread.pagedir
        (mk_frame 4096 10 1 (some origin_exec)).upage = false
    ∧ (mk_frame 4096 10 1 (some origin_exec)).origin = some origin_exec
    ∧ ((page_dump 2 100 (mk_frame 4096 10 1 (some origin_exec)) st_clean_origin).pagedirs
          (mk_frame 4096 10 1 (some origin_exec)).thread.pagedir 100).suppl
        = some (Suppl_page.file origin_exec.source_file origin_exec.offset
            origin_exec.zero_after origin_exec.writable origin_exec.location)
    ∧ (page_dump 2 100 (mk_frame 4096 10 1 (some origin_exec)) st_clean_origin).files
        = st_clean_origin.files :=
  ⟨rfl, rfl,
    (page_dump_clean_origin 2 100 (mk_frame 4096 10 1 (some origin_exec)) origin_exec
      st_clean_origin rfl rfl).1,
    (page_dump_clean_origin 2 100 (mk_frame 4096 10 1 (some origin_exec)) origin_exec
      st_clean_origin rfl rfl).2.1⟩

theorem page_dump_store_pagedirs (f : Frame) (s : State) :
    (page_dump_store f s).2.pagedirs = s.pagedirs := by
  unfold page_dump_store
  cases pagedir_is_dirty s f.thread.pagedir f.upage <;> cases f.origin with
  | none => simp [swap_slot, swap_store, emit]
  | some o =>
    by_cases ho : o.location = Location.FILE <;>
    simp [swap_slot, swap_store, emit, file_write_at, lock_acquire, lock_release, ho]

theorem page_dump_pagedirs (pd upage : Nat) (f : Frame) (s : State) (d p : Nat) :
    (page_dump pd upage f s).pagedirs d p
      = if d = f.thread.pagedir ∧ p = upage then
          { kpage := none, accessed := false, dirty := (s.pagedirs d p).dirty,
            suppl := some (page_dump_store f s).1 }
        else s.pagedirs d p := by
  have h := page_dump_store_pagedirs f s
  simp only [page_dump, lock_acquire, lock_release, emit, pagedir_clear_page,
    pagedir_set_page_suppl, pagedir_set_accessed, pte_update, h]
  by_cases hc : d = f.thread.pagedir ∧ p = upage
  · simp [hc]
  · simp [hc]

theorem frame_free_pagedirs (addr : Option Nat) (s : State) :
    (frame_free addr s).2.pagedirs = s.pagedirs := by
  cases hf : frame_find addr s with
  | none => rw [frame_free_absent s addr hf]
  | some f => simp [frame_free, hf, lock_frames, unlock_frames, lock_acquire, lock_release,
      emit, palloc_free_page]

theorem evict_passA_select (pd upage : Nat) (pre : List Frame) (g : Frame)
    (post : List Frame) (s : State)
    (hpre : ∀ x ∈ pre, get_class s x.thread.pagedir upage ≠ 1)
    (hg : get_class s g.thread.pagedir upage = 1) :
    evict_passA pd upage (pre ++ g :: post) none s
      = (some g.addr, page_dump pd upage g s) := by
  induction pre with
  | nil => simp only [List.nil_append, evict_passA, hg, if_true, evict_passA_some]
  | cons x xs ih =>
    have hx := hpre x (List.mem_cons_self x xs)
    simp only [List.cons_append, evict_passA, hx, if_false]
    exact ih (fun y hy => hpre y (List.mem_cons_of_mem x hy))

theorem evict_passB_visits_some (pd upage : Nat) (fs : List Frame) (k : Nat) (s : State) :
    evict_passB_visits pd upage fs (some k) s = 0 := by
  cases fs <;> rfl

theorem evict_passA_visits_some (pd upage : Nat) (fs : List Frame) (k : Nat) (s : State) :
    evict_passA_visits pd upage fs (some k) s = 0 := by
  cases fs <;> rfl

theorem evict_rounds_run_some (pd upage n k : Nat) (s : State) :
    evict_rounds_run pd upage n (some k) s = 0 := by
  cases n <;> rfl

theorem evict_rounds_visits_some (pd upage n k : Nat) (s : State) :
    evict_rounds_visits pd upage n (some k) s = 0 := by
  cases n <;> rfl

/-- C15: evaluation of the code on a table of three records, the first two owned
by thread 1, for the requesting page 100.  When `evict` starts the classes are
4, 4 and 3, so no record is of class 1 and the first record of class 3 is the
third one (frame 12288).  The first scan selects nothing; the second scan clears
the accessed bit sampled for the first record, which is also the bit sampled for
the second record, and then selects the second record (frame 8192), whose class
was 4 when `evict` started. -/
theorem evict_shared_bits_victim :
    get_class st_shared (mk_frame 4096 10 1 none).thread.pagedir 100 = 4
    ∧ get_class st_shared (mk_frame 8192 100 1 none).thread.pagedir 100 = 4
    ∧ get_class st_shared (mk_frame 12288 100 2 none).thread.pagedir 100 = 3
    ∧ evict_passA 3 100 st_shared.frames none (lock_frames st_shared)
        = (none, lock_frames st_shared)
    ∧ (evict_passB 3 100 st_shared.frames none (lock_frames st_shared)).1 = some 8192
    ∧ (evict_scan 100 (mk_thread 3) st_shared).1 = some 8192
    ∧ (evict 100 (mk_thread 3) st_shared).frames
        = [mk_frame 4096 10 1 none, mk_frame 12288 100 2 none] := by
  refine ⟨by decide, by decide, by decide, ?_, by decide, by decide, by decide⟩
  apply evict_passA_none
  decide

theorem evict_passA_visits_le (pd upage : Nat) (fs : List Frame) :
    ∀ (k : Option Nat) (s : State), evict_passA_visits pd upage fs k s ≤ fs.length := by
  induction fs with
  | nil => intro k s; simp [evict_passA_visits]
  | cons f fs ih =>
    intro k s
    cases k with
    | some k => simp [evict_passA_visits]
    | none =>
      by_cases hc : get_class s f.thread.pagedir upage = 1
      · simp only [evict_passA_visits, hc, if_true, List.length_cons]
        have := ih (some f.addr) (page_dump pd upage f s)
        omega
      · simp only [evict_passA_visits, hc, if_false, List.length_cons]
        have := ih none s
        omega

theorem evict_passB_visits_le (pd upage : Nat) (fs : List Frame) :
    ∀ (k : Option Nat) (s : State), evict_passB_visits pd upage fs k s ≤ fs.length := by
  induction fs with
  | nil => intro k s; simp [evict_passB_visits]
  | cons f fs ih =>
    intro k s
    cases k with
    | some k => simp [evict_passB_visits]
    | none =>
      by_cases hc : get_class s f.thread.pagedir upage = 3
      · simp only [evict_passB_visits, hc, if_true, List.length_cons]
        have := ih (some f.addr) (page_dump pd upage f s)
        omega
      · simp only [evict_passB_visits, hc, if_false, List.length_cons]
        have := ih none (pagedir_set_accessed f.thread.pagedir upage false s)
        omega

theorem evict_rounds_run_le (pd upage : Nat) (n : Nat) :
    ∀ (k : Option Nat) (s : State), evict_rounds_run pd upage n k s ≤ n := by
  induction n with
  | zero => intro k s; simp [evict_rounds_run]
  | succ n ih =>
    intro k s
    cases k with
    | some k => simp [evict_rounds_run]
    | none =>
      simp only [evict_rounds_run]
      have := ih (evict_passB pd upage (evict_passA pd upage s.frames none s).2.frames
        (evict_passA pd upage s.frames none s).1 (evict_passA pd upage s.frames none s).2).1
        (evict_passB pd upage (evict_passA pd upage s.frames none s).2.frames
        (evict_passA pd upage s.frames none s).1 (evict_passA pd upage s.frames none s).2).2
      omega

theorem evict_rounds_visits_le (pd upage : Nat) (n : Nat) :
    ∀ (k : Option Nat) (s : State),
      evict_rounds_visits pd upage n k s ≤ 2 * n * s.frames.length := by
  induction n with
  | zero => intro k s; simp [evict_rounds_visits]
  | succ n ih =>
    intro k s
    cases k with
    | some k => simp [evict_rounds_visits]
    | none =>
      have hA : (evict_passA pd upage s.frames none s).2.frames.length = s.frames.length := by
        rw [(evict_passA_frames pd upage s.frames none s).1]
      have hB : (evict_passB pd upage (evict_passA pd upage s.frames none s).2.frames
          (evict_passA pd upage s.frames none s).1
          (evict_passA pd upage s.frames none s).2).2.frames.length = s.frames.length := by
        rw [(evict_passB_frames pd upage _ _ _).1, hA]
      have h1 := evict_passA_visits_le pd upage s.frames none s
      have h2 := evict_passB_visits_le pd upage (evict_passA pd upage s.frames none s).2.frames
        (evict_passA pd upage s.frames none s).1 (evict_passA pd upage s.frames none s).2
      have h3 := ih (evict_passB pd upage (evict_passA pd upage s.frames none s).2.frames
        (evict_passA pd upage s.frames none s).1 (evict_passA pd upage s.frames none s).2).1
        (evict_passB pd upage (evict_passA pd upage s.frames none s).2.frames
        (evict_passA pd upage s.frames none s).1 (evict_passA pd upage s.frames none s).2).2
      rw [hB] at h3
      rw [hA] at h2
      have h4 : 2 * (n + 1) * s.frames.length
          = s.frames.length + s.frames.length + 2 * n * s.frames.length := by ring
      rw [h4]
      show evict_passA_visits pd upage s.frames none s
          + evict_passB_visits pd upage (evict_passA pd upage s.frames none s).2.frames
              (evict_passA pd upage s.frames none s).1 (evict_passA pd upage s.frames none s).2
          + evict_rounds_visits pd upage n
              (evict_passB pd upage (evict_passA pd upage s.frames none s).2.frames
                (evict_passA pd upage s.frames none s).1
                (evict_passA pd upage s.frames none s).2).1
              (evict_passB pd upage (evict_passA pd upage s.frames none s).2.frames
                (evict_passA pd upage s.frames none s).1
                (evict_passA pd upage s.frames none s).2).2
          ≤ s.frames.length + s.frames.length + 2 * n * s.frames.length
      exact Nat.add_le_add (Nat.add_le_add h1 h2) h3

/-- C18, the claim as stated fails: on the empty table with an exhausted pool a
call of `evict` is not reported as an internal error; it returns, and the state
it returns differs from the one it got only by the acquire and release of the
frame-table lock. -/
theorem evict_empty_not_reported :
    st_exhausted.frames = []
    ∧ evict_outcome 100 (mk_thread 1) st_exhausted ≠ Outcome.internal_error
    ∧ evict_outcome 100 (mk_thread 1) st_exhausted
        = Outcome.returned { st_exhausted with trace := st_exhausted.trace ++
            [Event.acquire LockId.frames_lock, Event.release LockId.frames_lock] } := by
  refine ⟨rfl, ?_, ?_⟩
  · intro h
    exact Outcome.noConfusion h
  · unfold evict_outcome evict
    rw [evict_scan_empty 100 (mk_thread 1) st_exhausted rfl]
    rfl

/-- C18, amended: for every table `evict` ends after at most two executions of
the body of its outer loop and at most four scans, each scan running its body at
most once per record, so at most four times the number of records in all; on
the empty table it selects no victim, `frame_free (NULL)` returns false, nothing
changes but the trace of lock events (no page-table bit, no record of the
table), and `evict` returns to its caller without reporting an error. -/
theorem evict_terminates_bounded (upage : Nat) (th : Thread) (s : State) :
    evict_rounds_run th.pagedir upage 2 none (lock_frames s) ≤ 2
    ∧ evict_rounds_visits th.pagedir upage 2 none (lock_frames s) ≤ 4 * s.frames.length
    ∧ (∀ k x, evict_passA_visits th.pagedir upage s.frames k x ≤ s.frames.length)
    ∧ (∀ k x, evict_passB_visits th.pagedir upage s.frames k x ≤ s.frames.length)
    ∧ (s.frames = [] →
        (evict_scan upage th s).1 = none
        ∧ (frame_free (evict_scan upage th s).1 (evict_scan upage th s).2).1 = false
        ∧ evict upage th s = { s with trace := s.trace ++
            [Event.acquire LockId.frames_lock, Event.release LockId.frames_lock] }
        ∧ (evict upage th s).pagedirs = s.pagedirs
        ∧ (evict upage th s).frames = s.frames
        ∧ (evict upage th s).free = s.free
        ∧ evict_outcome upage th s = Outcome.returned { s with trace := s.trace ++
            [Event.acquire LockId.frames_lock, Event.release LockId.frames_lock] }) := by
  refine ⟨evict_rounds_run_le _ _ _ _ _, ?_, fun k x => evict_passA_visits_le _ _ _ k x,
    fun k x => evict_passB_visits_le _ _ _ k x, ?_⟩
  · have := evict_rounds_visits_le th.pagedir upage 2 none (lock_frames s)
    have hfr : (lock_frames s).frames = s.frames := rfl
    rw [hfr] at this
    omega
  · intro hfr
    have hscan := evict_scan_empty upage th s hfr
    have hev : evict upage th s = { s with trace := s.trace ++
        [Event.acquire LockId.frames_lock, Event.release LockId.frames_lock] } := by
      show (frame_free (evict_scan upage th s).1 (evict_scan upage th s).2).2 = _
      rw [hscan]
      rfl
    refine ⟨by rw [hscan], by rw [hscan]; rfl, hev, by rw [hev], by rw [hev], by rw [hev], ?_⟩
    unfold evict_outcome
    rw [hev]

theorem evict_terminates_bounded_witness :
    st_exhausted.frames = []
    ∧ evict_rounds_run (mk_thread 1).pagedir 100 2 none (lock_frames st_exhausted) ≤ 2
    ∧ (evict_scan 100 (mk_thread 1) st_exhausted).1 = none
    ∧ (evict 100 (mk_thread 1) st_exhausted).pagedirs = st_exhausted.pagedirs :=
  ⟨rfl, (evict_terminates_bounded 100 (mk_thread 1) st_exhausted).1,
    ((evict_terminates_bounded 100 (mk_thread 1) st_exhausted).2.2.2.2 rfl).1,
    ((evict_terminates_bounded 100 (mk_thread 1) st_exhausted).2.2.2.2 rfl).2.2.2.1⟩

theorem evict_passA_none_of_fst (pd upage : Nat) (fs : List Frame) (s : State)
    (h : (evict_passA pd upage fs none s).1 = none) :
    evict_passA pd upage fs none s = (none, s) := by
  rcases evict_passA_result pd upage fs s with ⟨h1, _⟩ | ⟨g, _, hg⟩
  · exact h1
  · rw [h] at hg; exact Option.noConfusion hg

theorem evict_passB_none_of_fst (pd upage : Nat) (fs : List Frame) (s : State)
    (h : (evict_passB pd upage fs none s).1 = none) :
    evict_passB pd upage fs none s = (none, clear_accessed_all upage fs s) := by
  rcases evict_passB_result pd upage fs s with h1 | ⟨g, _, hg⟩
  · exact h1
  · rw [h] at hg; exact Option.noConfusion hg

theorem lock_run_append (a b : List Event) :
    ∀ h : List LockId, lock_run h (a ++ b) = (lock_run h a).bind (fun h2 => lock_run h2 b) := by
  induction a with
  | nil => intro h; rfl
  | cons e es ih =>
    intro h
    simp only [List.cons_append, lock_run]
    cases lock_step h e with
    | none => rfl
    | some h1 => exact ih h1

theorem runs_trans {h h1 h2 : List LockId} {s s1 s2 : State} (a : Runs h s s1 h1)
    (b : Runs h1 s1 s2 h2) : Runs h s s2 h2 := by
  obtain ⟨e1, t1, r1⟩ := a
  obtain ⟨e2, t2, r2⟩ := b
  refine ⟨e1 ++ e2, ?_, ?_⟩
  · rw [t2, t1, List.append_assoc]
  · rw [lock_run_append, r1]
    exact r2

theorem runs_same {h : List LockId} {s s2 : State} (ht : s2.trace = s.trace) :
    Runs h s s2 h :=
  ⟨[], by rw [ht, List.append_nil], rfl⟩

theorem runs_emit {h h2 : List LockId} (e : Event) (s : State)
    (hs : lock_step h e = some h2) : Runs h s (emit e s) h2 :=
  ⟨[e], rfl, by simp [lock_run, hs]⟩

theorem runs_page_dump (pd upage : Nat) (f : Frame) (s : State) (h : List LockId)
    (hm : LockId.frames_lock ∈ h) : Runs h s (page_dump pd upage f s) h := by
  unfold Runs
  cases hd : pagedir_is_dirty s f.thread.pagedir f.upage <;> cases hor : f.origin with
  | none =>
    simp [page_dump, page_dump_store, hd, hor, swap_slot, swap_store, emit, lock_acquire,
      lock_release, pagedir_clear_page, pagedir_set_page_suppl, pagedir_set_accessed,
      pte_update, lock_run, lock_step, hm]
  | some o =>
    by_cases ho : o.location = Location.FILE <;>
    simp [page_dump, page_dump_store, hd, hor, ho, swap_slot, swap_store, emit, lock_acquire,
      lock_release, file_write_at, pagedir_clear_page, pagedir_set_page_suppl,
      pagedir_set_accessed, pte_update, lock_run, lock_step, hm]
theorem runs_passA (pd upage : Nat) (h : List LockId) (hm : LockId.frames_lock ∈ h)
    (fs : List Frame) :
    ∀ (k : Option Nat) (s : State), Runs h s (evict_passA pd upage fs k s).2 h := by
  induction fs with
  | nil => intro k s; exact runs_same rfl
  | cons f fs ih =>
    intro k s
    cases k with
    | some k => exact runs_same rfl
    | none =>
      by_cases hc : get_class s f.thread.pagedir upage = 1
      · simp only [evict_passA, hc, if_true]
        exact runs_trans (runs_page_dump pd upage f s h hm) (ih _ _)
      · simp only [evict_passA, hc, if_false]
        exact ih _ _

theorem runs_passB (pd upage : Nat) (h : List LockId) (hm : LockId.frames_lock ∈ h)
    (fs : List Frame) :
    ∀ (k : Option Nat) (s : State), Runs h s (evict_passB pd upage fs k s).2 h := by
  induction fs with
  | nil => intro k s; exact runs_same rfl
  | cons f fs ih =>
    intro k s
    cases k with
    | some k => exact runs_same rfl
    | none =>
      by_cases hc : get_class s f.thread.pagedir upage = 3
      · simp only [evict_passB, hc, if_true]
        exact runs_trans (runs_page_dump pd upage f s h hm) (ih _ _)
      · simp only [evict_passB, hc, if_false]
        have hstep : Runs h s (pagedir_set_accessed f.thread.pagedir upage false s) h :=
          runs_same rfl
        exact runs_trans hstep (ih _ _)

theorem runs_rounds (pd upage : Nat) (h : List LockId) (hm : LockId.frames_lock ∈ h)
    (n : Nat) :
    ∀ (k : Option Nat) (s : State), Runs h s (evict_rounds pd upage n k s).2 h := by
  induction n with
  | zero => intro k s; exact runs_same rfl
  | succ n ih =>
    intro k s
    cases k with
    | some k => exact runs_same rfl
    | none =>
      rw [evict_rounds_succ]
      exact runs_trans (runs_passA pd upage h hm s.frames none s)
        (runs_trans (runs_passB pd upage h hm _ _ _) (ih _ _))

theorem runs_evict_scan (upage : Nat) (th : Thread) (s : State) (h : List LockId)
    (hm : LockId.frames_lock ∉ h) : Runs h s (evict_scan upage th s).2 h := by
  have h1 : Runs h s (lock_frames s) (LockId.frames_lock :: h) :=
    runs_emit _ s (by simp [lock_step, hm])
  have h2 := runs_rounds th.pagedir upage (LockId.frames_lock :: h)
    (List.mem_cons_self _ _) 2 none (lock_frames s)
  have h3 : Runs (LockId.frames_lock :: h)
      (evict_rounds th.pagedir upage 2 none (lock_frames s)).2
      (unlock_frames (evict_rounds th.pagedir upage 2 none (lock_frames s)).2) h :=
    runs_emit _ _ (by simp [lock_step])
  exact runs_trans h1 (runs_trans h2 h3)

theorem runs_frame_free (addr : Option Nat) (s : State) (h : List LockId)
    (hm : LockId.frames_lock ∉ h) : Runs h s (frame_free addr s).2 h := by
  cases hf : frame_find addr s with
  | none => rw [frame_free_absent s addr hf]; exact runs_same rfl
  | some f =>
    cases addr with
    | none => simp [frame_find] at hf
    | some a =>
      have hfa : hash_find s.frames a = some f := hf
      rw [frame_free_found s a f hfa]
      exact ⟨[Event.acquire LockId.frames_lock, Event.release LockId.frames_lock], rfl,
        by simp [lock_run, lock_step, hm]⟩

theorem runs_evict (upage : Nat) (th : Thread) (s : State) (h : List LockId)
    (hm : LockId.frames_lock ∉ h) : Runs h s (evict upage th s) h :=
  runs_trans (runs_evict_scan upage th s h hm) (runs_frame_free _ _ h hm)

theorem runs_insert (t : Thread) (upage : Nat) (origin : Option Origin_info) (k : Nat)
    (s : State) :
    Runs [] s (unlock_frames { lock_frames s with
      frames := hash_insert (lock_frames s).frames
        { addr := k, upage := upage, origin := origin, thread := t } }) [] :=
  ⟨[Event.acquire LockId.frames_lock, Event.release LockId.frames_lock],
    by simp [unlock_frames, lock_frames, lock_acquire, lock_release, emit],
    by simp [lock_run, lock_step]⟩

theorem palloc_get_page_trace (zero : Bool) (s : State) :
    (palloc_get_page zero s).2.trace = s.trace := by
  unfold palloc_get_page
  cases s.free <;> rfl

theorem runs_frame_get (t : Thread) (upage : Nat) (zero : Bool)
    (origin : Option Origin_info) (s : State) :
    Runs [] s (frame_get t upage zero origin s).2 [] := by
  have hp : Runs [] s (palloc_get_page zero s).2 [] := runs_same (palloc_get_page_trace zero s)
  cases hk : (palloc_get_page zero s).1 with
  | some k =>
    have : (frame_get t upage zero origin s).2
        = unlock_frames { lock_frames (palloc_get_page zero s).2 with
            frames := hash_insert (lock_frames (palloc_get_page zero s).2).frames
              { addr := k, upage := upage, origin := origin, thread := t } } := by
      simp only [frame_get, hk]
    rw [this]
    exact runs_trans hp (runs_insert t upage origin k _)
  | none =>
    have h1 : Runs [] (palloc_get_page zero s).2
        (lock_acquire LockId.eviction_lock (palloc_get_page zero s).2)
        [LockId.eviction_lock] := runs_emit _ _ (by simp [lock_step])
    have h2 := runs_evict upage t (lock_acquire LockId.eviction_lock (palloc_get_page zero s).2)
      [LockId.eviction_lock] (by decide)
    have h3 : Runs [LockId.eviction_lock]
        (evict upage t (lock_acquire LockId.eviction_lock (palloc_get_page zero s).2))
        (palloc_get_page zero
          (evict upage t (lock_acquire LockId.eviction_lock (palloc_get_page zero s).2))).2
        [LockId.eviction_lock] := runs_same (palloc_get_page_trace zero _)
    have h4 : Runs [LockId.eviction_lock]
        (palloc_get_page zero
          (evict upage t (lock_acquire LockId.eviction_lock (palloc_get_page zero s).2))).2
        (lock_release LockId.eviction_lock (palloc_get_page zero
          (evict upage t (lock_acquire LockId.eviction_lock (palloc_get_page zero s).2))).2)
        [] := runs_emit _ _ (by simp [lock_step])
    have h14 := runs_trans hp (runs_trans h1 (runs_trans h2 (runs_trans h3 h4)))
    cases hk2 : (palloc_get_page zero
        (evict upage t (lock_acquire LockId.eviction_lock (palloc_get_page zero s).2))).1 with
    | none =>
      have : (frame_get t upage zero origin s).2
          = lock_release LockId.eviction_lock (palloc_get_page zero
              (evict upage t (lock_acquire LockId.eviction_lock
                (palloc_get_page zero s).2))).2 := by
        simp only [frame_get, hk, hk2]
      rw [this]
      exact h14
    | some k =>
      have : (frame_get t upage zero origin s).2
          = unlock_frames { lock_frames (lock_release LockId.eviction_lock (palloc_get_page zero
              (evict upage t (lock_acquire LockId.eviction_lock
                (palloc_get_page zero s).2))).2) with
              frames := hash_insert (lock_frames (lock_release LockId.eviction_lock
                (palloc_get_page zero (evict upage t (lock_acquire LockId.eviction_lock
                  (palloc_get_page zero s).2))).2)).frames
                { addr := k, upage := upage, origin := origin, thread := t } } := by
        simp only [frame_get, hk, hk2]
      rw [this]
      exact runs_trans h14 (runs_insert t upage origin k _)
/-- C20: the lock events of any single call of `frame_get`, `frame_free` or
`evict`, started with no lock held, respect the lock ordering: the eviction lock
is never acquired while the frame-table lock or a `pagedir_mod` semaphore is
held, the file-system lock and the `pagedir_mod` semaphore are acquired only
while the frame-table lock is held, the frame-table lock is never acquired
while it is held, only held locks are released, and no lock is held when the
call returns.  In `evict` the scan ends with the release of the frame-table lock
and only then `frame_free` runs: at that point the page tables already are what
`evict` leaves, and no page has been freed yet. -/
theorem lock_ordering_respected (t th : Thread) (upage : Nat) (zero : Bool)
    (origin : Option Origin_info) (addr : Option Nat) (s : State) :
    Runs [] s (frame_get t upage zero origin s).2 []
    ∧ Runs [] s (frame_free addr s).2 []
    ∧ Runs [] s (evict upage th s) []
    ∧ evict upage th s = (frame_free (evict_scan upage th s).1 (evict_scan upage th s).2).2
    ∧ (∃ tr, (evict_scan upage th s).2.trace = tr ++ [Event.release LockId.frames_lock])
    ∧ (evict_scan upage th s).2.free = s.free
    ∧ (evict upage th s).pagedirs = (evict_scan upage th s).2.pagedirs :=
  ⟨runs_frame_get t upage zero origin s, runs_frame_free addr s [] (by simp),
    runs_evict upage th s [] (by simp), rfl,
    ⟨(evict_rounds th.pagedir upage 2 none (lock_frames s)).2.trace, rfl⟩,
    (evict_scan_frames upage th s).2, frame_free_pagedirs _ _⟩

/-- C6: evaluation of the code on tables of three records that all are of class 2
by their own page (accessed, clean), for the requesting page 100.  On
`st_own_two` the first scan of round 1 does not pass: it takes frame 4096 at
once, no second scan runs, and the accessed bits of the three own pages are
still set after `evict`.  On `st_both_two`, where the bits sampled by `evict`
are accessed and clean too, the two scans of round 1 select nothing, but the
second scan leaves the accessed bit of the own page of the first record set, so
the record that round 2 takes is still of class 2 by its own page. -/
theorem evict_own_class_two :
    own_class st_own_two (mk_frame 4096 10 1 none) = 2
    ∧ own_class st_own_two (mk_frame 8192 20 1 none) = 2
    ∧ own_class st_own_two (mk_frame 12288 30 2 none) = 2
    ∧ evict_passA 3 100 st_own_two.frames none (lock_frames st_own_two)
        = (some 4096, page_dump 3 100 (mk_frame 4096 10 1 none) (lock_frames st_own_two))
    ∧ evict_rounds_run 3 100 2 none (lock_frames st_own_two) = 1
    ∧ pagedir_is_accessed (evict 100 (mk_thread 3) st_own_two) 1 10 = true
    ∧ pagedir_is_accessed (evict 100 (mk_thread 3) st_own_two) 1 20 = true
    ∧ pagedir_is_accessed (evict 100 (mk_thread 3) st_own_two) 2 30 = true
    ∧ own_class st_both_two (mk_frame 4096 10 1 none) = 2
    ∧ own_class st_both_two (mk_frame 8192 100 1 none) = 2
    ∧ own_class st_both_two (mk_frame 12288 100 2 none) = 2
    ∧ (evict_passA 3 100 st_both_two.frames none (lock_frames st_both_two)).1 = none
    ∧ (evict_passB 3 100 st_both_two.frames none (lock_frames st_both_two)).1 = none
    ∧ own_class (evict_passB 3 100 st_both_two.frames none (lock_frames st_both_two)).2
        (mk_frame 4096 10 1 none) = 2
    ∧ (evict_scan 100 (mk_thread 3) st_both_two).1 = some 4096 := by
  refine ⟨by decide, by decide, by decide, ?_, by decide, by decide, by decide, by decide,
    by decide, by decide, by decide, by decide, by decide, by decide, by decide⟩
  exact evict_passA_select 3 100 [] (mk_frame 4096 10 1 none)
    [mk_frame 8192 20 1 none, mk_frame 12288 30 2 none] (lock_frames st_own_two)
    (by simp) (by decide)

/-- C14: evaluation of the code on tables that hold a record of class 1 by its
own page, for the requesting page 100.  On `st_own_one` the own classes are 2
and 1, so the first record of class 1 is the second one (frame 8192), yet
`evict` takes the first record (frame 4096), whose own page is accessed.  On
`st_second_idle` both records are of class 1 by their own page, yet the first
scan passes over the first record, `evict` takes the second one (frame 8192). -/
theorem evict_own_class_one :
    own_class st_own_one (mk_frame 4096 10 1 none) = 2
    ∧ own_class st_own_one (mk_frame 8192 20 2 none) = 1
    ∧ (evict_scan 100 (mk_thread 3) st_own_one).1 = some 4096
    ∧ (evict 100 (mk_thread 3) st_own_one).frames = [mk_frame 8192 20 2 none]
    ∧ own_class st_second_idle (mk_frame 4096 10 1 none) = 1
    ∧ own_class st_second_idle (mk_frame 8192 20 2 none) = 1
    ∧ (evict_scan 100 (mk_thread 3) st_second_idle).1 = some 8192 := by
  refine ⟨by decide, by decide, by decide, by decide, by decide, by decide, by decide⟩
theorem page_dump_store_fst (f : Frame) (s : State) :
    (page_dump_store f s).1
      = spec_record (pagedir_is_dirty s f.thread.pagedir f.upage) f.origin s.swap_next := by
  unfold page_dump_store spec_record
  cases pagedir_is_dirty s f.thread.pagedir f.upage <;> cases f.origin with
  | none => simp [swap_slot]
  | some o => by_cases ho : o.location = Location.FILE <;> simp [swap_slot, ho]

theorem page_dump_suppl (pd upage : Nat) (f : Frame) (s : State) :
    ((page_dump pd upage f s).pagedirs f.thread.pagedir upage).suppl
      = some (spec_record (pagedir_is_dirty s f.thread.pagedir f.upage) f.origin
          s.swap_next) := by
  rw [page_dump_pagedirs, if_pos ⟨rfl, rfl⟩, page_dump_store_fst]

theorem get_class_same_bits (upage : Nat) (s s2 : State) (d : Nat)
    (h : same_bits upage s s2) : get_class s2 d upage = get_class s d upage := by
  unfold get_class
  rw [(h d).1, (h d).2]

theorem same_bits_set_accessed (upage : Nat) (s s2 : State) (pd : Nat)
    (h : same_bits upage s s2) :
    same_bits upage (pagedir_set_accessed pd upage false s)
      (pagedir_set_accessed pd upage false s2) := by
  intro d
  have h1 := (h d).1
  have h2 := (h d).2
  simp only [pagedir_is_accessed, pagedir_is_dirty, pagedir_set_accessed, pte_update] at *
  by_cases hc : d = pd
  · simp [hc]
    rw [← hc]; exact h2
  · simp [hc]
    exact ⟨h1, h2⟩

theorem same_bits_clear_all (upage : Nat) (u : Frame → Nat) (fs : List Frame)
    (s s2 : State) (h : same_bits upage s s2) :
    same_bits upage (clear_accessed_all upage fs s)
      (clear_accessed_all upage (fs.map (set_upage u)) s2) := by
  have hm : (fs.map (set_upage u)).map (fun g => g.thread.pagedir)
      = fs.map (fun g => g.thread.pagedir) := by
    rw [List.map_map]
    rfl
  intro d
  have h1 := (h d).1
  have h2 := (h d).2
  simp only [pagedir_is_accessed, pagedir_is_dirty, clear_accessed_all, hm] at *
  by_cases hc : d ∈ fs.map (fun g => g.thread.pagedir)
  · simp only [hc, and_self, if_true]
    exact ⟨trivial, h2⟩
  · simp only [hc, and_false, if_false]
    exact ⟨h1, h2⟩

theorem evict_passA_indep (pd upage : Nat) (u : Frame → Nat) (fs : List Frame) :
    ∀ s s2 : State, same_bits upage s s2 →
      (evict_passA pd upage (fs.map (set_upage u)) none s2).1
        = (evict_passA pd upage fs none s).1 := by
  induction fs with
  | nil => intro s s2 _; rfl
  | cons f fs ih =>
    intro s s2 h
    have hc : get_class s2 (set_upage u f).thread.pagedir upage
        = get_class s f.thread.pagedir upage := get_class_same_bits upage s s2 _ h
    by_cases h1 : get_class s f.thread.pagedir upage = 1
    · have h1b : get_class s2 (set_upage u f).thread.pagedir upage = 1 := by rw [hc]; exact h1
      simp only [List.map_cons, evict_passA, h1, h1b, if_true, evict_passA_some]
      rfl
    · have h1b : ¬ get_class s2 (set_upage u f).thread.pagedir upage = 1 := by rw [hc]; exact h1
      simp only [List.map_cons, evict_passA, h1, h1b, if_false]
      exact ih s s2 h

theorem evict_passB_indep (pd upage : Nat) (u : Frame → Nat) (fs : List Frame) :
    ∀ s s2 : State, same_bits upage s s2 →
      (evict_passB pd upage (fs.map (set_upage u)) none s2).1
        = (evict_passB pd upage fs none s).1 := by
  induction fs with
  | nil => intro s s2 _; rfl
  | cons f fs ih =>
    intro s s2 h
    have hc : get_class s2 (set_upage u f).thread.pagedir upage
        = get_class s f.thread.pagedir upage := get_class_same_bits upage s s2 _ h
    by_cases h3 : get_class s f.thread.pagedir upage = 3
    · have h3b : get_class s2 (set_upage u f).thread.pagedir upage = 3 := by rw [hc]; exact h3
      simp only [List.map_cons, evict_passB, h3, h3b, if_true, evict_passB_some]
      rfl
    · have h3b : ¬ get_class s2 (set_upage u f).thread.pagedir upage = 3 := by rw [hc]; exact h3
      simp only [List.map_cons, evict_passB, h3, h3b, if_false]
      exact ih _ _ (same_bits_set_accessed upage s s2 f.thread.pagedir h)

theorem evict_rounds_indep (pd upage : Nat) (u : Frame → Nat) (n : Nat) :
    ∀ s s2 : State, same_bits upage s s2 → s2.frames = s.frames.map (set_upage u) →
      (evict_rounds pd upage n none s2).1 = (evict_rounds pd upage n none s).1 := by
  induction n with
  | zero => intro s s2 _ _; rfl
  | succ n ih =>
    intro s s2 hp hf
    have hA := evict_passA_indep pd upage u s.frames s s2 hp
    rw [← hf] at hA
    cases hk : (evict_passA pd upage s.frames none s).1 with
    | some k =>
      rw [evict_rounds_of_passA pd upage n k s hk,
        evict_rounds_of_passA pd upage n k s2 (by rw [hA, hk])]
    | none =>
      have hk2 : (evict_passA pd upage s2.frames none s2).1 = none := by rw [hA, hk]
      have hAs := evict_passA_none_of_fst pd upage s.frames s hk
      have hAs2 := evict_passA_none_of_fst pd upage s2.frames s2 hk2
      have hB := evict_passB_indep pd upage u s.frames s s2 hp
      rw [← hf] at hB
      cases hj : (evict_passB pd upage s.frames none s).1 with
      | some j =>
        rw [evict_rounds_of_passB pd upage n j s hAs hj,
          evict_rounds_of_passB pd upage n j s2 hAs2 (by rw [hB, hj])]
      | none =>
        have hj2 : (evict_passB pd upage s2.frames none s2).1 = none := by rw [hB, hj]
        have hBs := evict_passB_none_of_fst pd upage s.frames s hj
        have hBs2 := evict_passB_none_of_fst pd upage s2.frames s2 hj2
        rw [evict_rounds_of_none pd upage n s _ hAs hBs,
          evict_rounds_of_none pd upage n s2 _ hAs2 hBs2]
        apply ih
        · rw [hf]
          exact same_bits_clear_all upage u s.frames s s2 hp
        · exact hf

theorem evict_scan_indep (upage : Nat) (th : Thread) (u : Frame → Nat) (s s2 : State)
    (hb : same_bits upage s s2) (hf : s2.frames = s.frames.map (set_upage u)) :
    (evict_scan upage th s2).1 = (evict_scan upage th s).1 :=
  evict_rounds_indep th.pagedir upage u 2 (lock_frames s) (lock_frames s2) hb hf

theorem evict_passB_cleared_bits (pd upage : Nat) (fs : List Frame) (s : State)
    (h : (evict_passB pd upage fs none s).1 = none) :
    (∀ g ∈ fs, pagedir_is_accessed (evict_passB pd upage fs none s).2
        g.thread.pagedir upage = false)
    ∧ ∀ d p, p ≠ upage →
        (evict_passB pd upage fs none s).2.pagedirs d p = s.pagedirs d p := by
  rw [evict_passB_none_of_fst pd upage fs s h]
  refine ⟨?_, ?_⟩
  · intro g hg
    have hm : ∃ a ∈ fs, a.thread.pagedir = g.thread.pagedir := ⟨g, hg, rfl⟩
    simp [pagedir_is_accessed, clear_accessed_all, hm]
  · intro d p hp
    simp [clear_accessed_all, hp]
/-- C19: in `evict` the class of a candidate record `f` is computed from the
accessed and dirty bits of the requesting page in the page directory of the
owner of `f`: the first scan takes `f` exactly when both bits are clear there,
the second scan exactly when the page is dirty and not accessed there, and that
class is the classification of these two bits.  It does not depend on
`f.upage`: records of one thread get the same class in the same state, and
`evict` selects the same victim in any two states that agree on the bits of the
requesting page and on the records up to their `upage` fields.  A second scan
that selects nothing has cleared the accessed bit of the requesting page for
every record and has left every entry of every other page as it was, the own
page of a record included when it is not the requesting page. -/
theorem evict_class_of_requesting_page (pd upage : Nat) (th : Thread) (f : Frame)
    (fs : List Frame) (s : State) :
    evict_passA pd upage (f :: fs) none s
        = (if pagedir_is_accessed s f.thread.pagedir upage = false
              ∧ pagedir_is_dirty s f.thread.pagedir upage = false then
            (some f.addr, page_dump pd upage f s)
          else evict_passA pd upage fs none s)
    ∧ evict_passB pd upage (f :: fs) none s
        = (if pagedir_is_accessed s f.thread.pagedir upage = false
              ∧ pagedir_is_dirty s f.thread.pagedir upage = true then
            (some f.addr, page_dump pd upage f s)
          else evict_passB pd upage fs none
            (pagedir_set_accessed f.thread.pagedir upage false s))
    ∧ get_class s f.thread.pagedir upage
        = spec_class (pagedir_is_accessed s f.thread.pagedir upage)
            (pagedir_is_dirty s f.thread.pagedir upage)
    ∧ (∀ g : Frame, g.thread = f.thread →
        get_class s g.thread.pagedir upage = get_class s f.thread.pagedir upage)
    ∧ (∀ (u : Frame → Nat) (s2 : State), same_bits upage s s2 →
        s2.frames = s.frames.map (set_upage u) →
        (evict_scan upage th s2).1 = (evict_scan upage th s).1)
    ∧ (∀ l : List Frame, (evict_passB pd upage l none s).1 = none →
        (∀ g ∈ l, pagedir_is_accessed (evict_passB pd upage l none s).2
            g.thread.pagedir upage = false)
        ∧ (∀ d p, p ≠ upage →
            (evict_passB pd upage l none s).2.pagedirs d p = s.pagedirs d p)
        ∧ ∀ g ∈ l, g.upage ≠ upage →
            (evict_passB pd upage l none s).2.pagedirs g.thread.pagedir g.upage
              = s.pagedirs g.thread.pagedir g.upage) := by
  refine ⟨?_, ?_, ?_, ?_, ?_, ?_⟩
  · cases ha : pagedir_is_accessed s f.thread.pagedir upage <;>
    cases hd : pagedir_is_dirty s f.thread.pagedir upage <;>
    simp [evict_passA, get_class, ha, hd, evict_passA_some]
  · cases ha : pagedir_is_accessed s f.thread.pagedir upage <;>
    cases hd : pagedir_is_dirty s f.thread.pagedir upage <;>
    simp [evict_passB, get_class, ha, hd, evict_passB_some]
  · unfold get_class spec_class
    cases pagedir_is_accessed s f.thread.pagedir upage <;>
    cases pagedir_is_dirty s f.thread.pagedir upage <;> simp
  · intro g hg
    rw [hg]
  · intro u s2 hb hf
    exact evict_scan_indep upage th u s s2 hb hf
  · intro l hl
    have h := evict_passB_cleared_bits pd upage l s hl
    exact ⟨h.1, h.2, fun g _ hne => h.2 _ _ hne⟩

theorem evict_class_of_requesting_page_witness :
    same_bits 100 st_shared st_shared_other
    ∧ st_shared_other.frames = st_shared.frames.map (set_upage Frame.upage)
    ∧ own_class st_shared (mk_frame 4096 10 1 none) = 2
    ∧ own_class st_shared_other (mk_frame 4096 10 1 none) = 3
    ∧ (evict_scan 100 (mk_thread 3) st_shared).1 = some 8192
    ∧ (evict_scan 100 (mk_thread 3) st_shared_other).1
        = (evict_scan 100 (mk_thread 3) st_shared).1 :=
  ⟨fun d => by
      simp [pagedir_is_accessed, pagedir_is_dirty, st_shared, st_shared_other, mk_state],
    rfl, by decide, by decide, by decide,
    (evict_class_of_requesting_page 3 100 (mk_thread 3) (mk_frame 4096 10 1 none)
      [mk_frame 8192 100 1 none, mk_frame 12288 100 2 none] st_shared).2.2.2.2.1
      Frame.upage st_shared_other
      (fun d => by
        simp [pagedir_is_accessed, pagedir_is_dirty, st_shared, st_shared_other, mk_state])
      rfl⟩

end Pintos
